import Mathlib

/-!
# A shallow embedding of `libfritter/sqlitewrapper.py`

This file models the keyed-persistence layer of libfritter: the generic
`KeyedSqliteThing` record class, its `AgedKeyedSqliteThing` time helpers, the
`PendingSend` outbox entity, and the sqlite behaviours those classes rely on
(single-table rows, `SELECT`/`INSERT`/`UPDATE`/`DELETE` by key, and the
bounded-retry `unsent` scan).

Modelling conventions:
* A sqlite cell holds TEXT or INTEGER; SQL NULL is the absence of the cell.
* A Python `dict` is an insertion-ordered association list.
* A Python property value may be `None`; record properties therefore map to
  `Option Value`, with `none` standing for Python `None`.
* Timestamps are carried as their formatted `YYYY-MM-DD HH:MM:SS` text;
  `strftime`/`strptime` are abstracted as the identity on that text form.
* Exceptions become `Except DbError`; raising before any statement executes
  leaves the caller's record and store untouched, which the pure embedding
  expresses by returning no new state on `.error`.
-/

namespace LibFritter

/-- A value stored in a sqlite cell: the wrapper only ever stores TEXT
(addresses, template names, formatted timestamps, JSON payloads) or INTEGER
values (identifiers, retry counters). -/
inductive Value where
  | int (n : Int)
  | text (s : String)
deriving DecidableEq

/-- Lookup in an insertion-ordered association list, modelling Python
`m.get(k)` (`none` when the key is absent). -/
def getKey {α : Type} : List (String × α) → String → Option α
  | [], _ => none
  | (k', v) :: rest, k => if k' = k then some v else getKey rest k

/-- `setKey m k v` models Python dict assignment `m[k] = v`: an existing key is
overwritten in place, a new key is appended, so insertion order is kept. -/
def setKey {α : Type} : List (String × α) → String → α → List (String × α)
  | [], k, v => [(k, v)]
  | (k', v') :: rest, k, v =>
    if k' = k then (k, v) :: rest else (k', v') :: setKey rest k v

/-- Python `k in m`. -/
def hasKey {α : Type} (m : List (String × α)) (k : String) : Bool :=
  (getKey m k).isSome

/-- One stored row of the single table: the key column (`id`, an sqlite
integer primary key) plus the remaining columns; a column absent from `cells`
holds SQL NULL. -/
structure Row where
  rowId : Nat
  cells : List (String × Value)
deriving DecidableEq

/-- Read a column of a row; `none` is SQL NULL. -/
def Row.get (r : Row) (c : String) : Option Value :=
  getKey r.cells c

/-- Assign one column of a row, as an `UPDATE ... SET c=?` does: binding a
Python `None` stores SQL NULL, i.e. removes the cell. -/
def Row.setCell (r : Row) (c : String) (v : Option Value) : Row :=
  match v with
  | some w => { r with cells := setKey r.cells c w }
  | none => { r with cells := r.cells.filter (fun p => p.1 != c) }

/-- The table: a list of rows in insertion order (sqlite scans them in rowid
order, and every insert below appends a larger rowid). -/
abbrev Table := List Row

/-- `SELECT ... WHERE id=?` followed by `fetchone`. -/
def selectById (db : Table) (i : Nat) : Option Row :=
  db.find? (fun r => r.rowId == i)

/-- `DELETE FROM ... WHERE id=?`. -/
def deleteById (db : Table) (i : Nat) : Table :=
  db.filter (fun r => r.rowId != i)

/-- Apply the `SET` assignments of an `UPDATE` to one row, left to right. -/
def applyAssignsRow (assigns : List (String × Option Value)) (r : Row) : Row :=
  assigns.foldl (fun acc kv => acc.setCell kv.1 kv.2) r

/-- `UPDATE ... SET k1=?, k2=?, ... WHERE id=?`: every row whose key matches
receives all the assignments, other rows are untouched. -/
def updateById (db : Table) (i : Nat) (assigns : List (String × Option Value)) : Table :=
  db.map (fun r => if r.rowId = i then applyAssignsRow assigns r else r)

/-- The auto-assigned key for an insert that supplies no `id`: sqlite's
`lastrowid` for an INTEGER PRIMARY KEY table, one more than the largest rowid
in use. -/
def nextRowId (db : Table) : Nat :=
  db.foldl (fun m r => max m r.rowId) 0 + 1

/-- Errors surfaced by the wrapper.  `missingRequiredProperties` and
`unknownProperty` are the exceptions raised in `save` and `__getattr__`;
`constraintViolation` is the sqlite `IntegrityError` an `INSERT` with a
duplicate primary key propagates unchanged. -/
inductive DbError where
  | missingRequiredProperties (missing : List String)
  | unknownProperty (name : String)
  | constraintViolation
deriving DecidableEq

/-- The instance state of `KeyedSqliteThing` (and of its subclasses — the
declared property lists are class data in Python and instance data here):
`_id`, `_props`, `_in_db`, `_db_required_props`, `_db_optional_props` and
`_db_auto_props`. -/
structure KeyedSqliteThing where
  id : Option Nat
  props : List (String × Option Value)
  in_db : Bool
  db_required_props : List String
  db_optional_props : List String
  db_auto_props : List String
deriving DecidableEq

namespace KeyedSqliteThing

/-- `_db_props`: the declared (non-auto) property names. -/
def db_props (r : KeyedSqliteThing) : List String :=
  r.db_required_props ++ r.db_optional_props

/-- `__getattr__`: a declared name reads `_props.get(name, None)`; an
undeclared one raises `AttributeError("No property ...")`. -/
def getattr (r : KeyedSqliteThing) (name : String) : Except DbError (Option Value) :=
  if name ∈ r.db_props then .ok ((getKey r.props name).getD none)
  else .error (.unknownProperty name)

/-- `self._props.get(name, None)`: the read every declared-property access
bottoms out in (`__getattr__` after its declared-name check, and the concrete
getters of `PendingSend`). -/
def prop (r : KeyedSqliteThing) (k : String) : Option Value :=
  (getKey r.props k).getD none

/-- `__setattr__`: a declared name is stored into `_props`; an undeclared one
becomes a plain object attribute, which lies outside the persisted state
modelled here, so the record is unchanged. -/
def setattr (r : KeyedSqliteThing) (name : String) (v : Option Value) : KeyedSqliteThing :=
  if name ∈ r.db_props then { r with props := setKey r.props name v } else r

/-- The loop body of `_load`: for each selected column, a non-NULL cell is
copied into `_props`, a NULL one is skipped. -/
def loadProps (row : Row) (ps : List String)
    (acc0 : List (String × Option Value)) : List (String × Option Value) :=
  ps.foldl (fun acc p =>
    match Row.get row p with
    | some v => setKey acc p (some v)
    | none => acc) acc0

/-- `_load`: `SELECT` the declared plus auto columns `WHERE id=?`; when a row
is found, copy its non-NULL cells into `_props` and set `_in_db`.  A missing
identifier selects nothing (`WHERE id=NULL` matches no row), like a missing
row it leaves the record blank. -/
def load (r : KeyedSqliteThing) (db : Table) : KeyedSqliteThing :=
  match r.id with
  | none => r
  | some i =>
    match selectById db i with
    | none => r
    | some row =>
      { r with props := loadProps row (r.db_props ++ r.db_auto_props) r.props,
               in_db := true }

/-- `__init__`: record the identifier and declarations with empty `_props`;
when an identifier is supplied, immediately `_load`. -/
def init (required opt auto : List String) (id : Option Nat) (db : Table) :
    KeyedSqliteThing :=
  let r : KeyedSqliteThing :=
    { id := id, props := [], in_db := false,
      db_required_props := required, db_optional_props := opt,
      db_auto_props := auto }
  match id with
  | some _ => r.load db
  | none => r

/-- `_missing_props`: the required names not present as keys of `_props`
(a key set to `None` counts as present). -/
def missing_props (r : KeyedSqliteThing) : List String :=
  r.db_required_props.filter (fun name => !(hasKey r.props name))

/-- `delete`.  On a record not in the database the code intends to raise
"Cannot remove ... not in database!", but building that message evaluates
`self.self._id`; attribute lookup of `self` falls through to `__getattr__`,
which raises `AttributeError("No property 'self'")` before the intended
exception is constructed.  Otherwise the row is deleted by key and `_in_db`
is cleared; identifier and `_props` are untouched. -/
def delete (r : KeyedSqliteThing) (db : Table) :
    Except DbError (KeyedSqliteThing × Table) :=
  if r.in_db then
    match r.id with
    | some i => .ok ({ r with in_db := false }, deleteById db i)
    | none => .ok ({ r with in_db := false }, db)
  else
    .error (.unknownProperty "self")

/-- Build the row of an `INSERT`: the columns named in the statement are the
identifier plus exactly the keys of `_props` (a `None` value binds SQL NULL);
every other column takes the table's declared DDL default, if any. -/
def insertRow (defaults : List (String × Value)) (i : Nat)
    (props : List (String × Option Value)) : Row :=
  { rowId := i,
    cells := props.filterMap (fun kv => kv.2.map (fun v => (kv.1, v)))
      ++ defaults.filter (fun cv => !(hasKey props cv.1)) }

/-- `save`, parametrised by the table's DDL column defaults (the schema lives
outside the wrapper).  Missing required properties raise before any statement
runs.  A record already in the database issues a full `UPDATE` of its set
properties keyed by its identifier (`WHERE id=NULL` matches nothing).  A new
record issues an `INSERT`: an explicit duplicate key propagates sqlite's
integrity error; otherwise the row is appended, a store-generated identifier
is adopted when none was supplied, and `_in_db` becomes true. -/
def save (defaults : List (String × Value)) (r : KeyedSqliteThing) (db : Table) :
    Except DbError (KeyedSqliteThing × Table) :=
  let missing := r.missing_props
  if missing ≠ [] then
    .error (.missingRequiredProperties missing)
  else if r.in_db then
    match r.id with
    | some i => .ok (r, updateById db i r.props)
    | none => .ok (r, db)
  else
    match r.id with
    | some i =>
      if (selectById db i).isSome then .error .constraintViolation
      else .ok ({ r with in_db := true }, db ++ [insertRow defaults i r.props])
    | none =>
      let i := nextRowId db
      .ok ({ r with id := some i, in_db := true },
           db ++ [insertRow defaults i r.props])

/-- `AgedKeyedSqliteThing._get_time_property`: absent key reads as `None`;
otherwise the stored text is the timestamp (parsing abstracted away). -/
def get_time_property (r : KeyedSqliteThing) (name : String) : Option String :=
  match getKey r.props name with
  | some (some (Value.text s)) => some s
  | _ => none

/-- `AgedKeyedSqliteThing._set_time_property`: format the instant and assign
through `__setattr__`. -/
def set_time_property (r : KeyedSqliteThing) (name : String) (s : String) :
    KeyedSqliteThing :=
  r.setattr name (some (Value.text s))

/-- Record fields other than `id` and `in_db` that `save` never changes. -/
def sameContent (r r' : KeyedSqliteThing) : Prop :=
  r'.props = r.props ∧ r'.db_required_props = r.db_required_props ∧
  r'.db_optional_props = r.db_optional_props ∧ r'.db_auto_props = r.db_auto_props

/-- The declared-keys invariant: `_props` never holds a key outside the
declared (required and optional) plus auto-tracked property names. -/
def GoodKeys (r : KeyedSqliteThing) : Prop :=
  r.props.map Prod.fst ⊆ r.db_props ++ r.db_auto_props

end KeyedSqliteThing

/-! ## A model of the `json` module

`PendingSend.template_vars` serializes through Python's `json.dumps` /
`json.loads`.  The module is external to the repository, so it is modelled
here by an executable printer and parser over the structured values JSON can
carry.  The printer follows `json.dumps`'s default compact form (separators
`", "` and `": "`); of the escape sequences it only needs the two that the
round trip depends on, `\"` and `\\` (the remaining escapes of the real
module concern characters whose escaped and raw forms the parser folds to the
same text, so they do not affect structural equality). -/

/-- A JSON-representable structured value: nested mappings, sequences and
scalars. -/
inductive Json where
  | null
  | bool (b : Bool)
  | num (n : Int)
  | str (s : String)
  | arr (elems : List Json)
  | obj (fields : List (String × Json))

namespace Json

/-- The character of one decimal digit. -/
def digitChar : Nat → Char
  | 0 => '0' | 1 => '1' | 2 => '2' | 3 => '3' | 4 => '4'
  | 5 => '5' | 6 => '6' | 7 => '7' | 8 => '8' | 9 => '9'
  | _ => '0'

/-- The numeric value of a digit character. -/
def digitVal (c : Char) : Nat :=
  c.toNat - 48

/-- The decimal digits of a natural number, most significant first. -/
def natChars (n : Nat) : List Char :=
  if h : n < 10 then [digitChar n]
  else natChars (n / 10) ++ [digitChar (n % 10)]
termination_by n
decreasing_by exact Nat.div_lt_self (by omega) (by omega)

/-- An integer as JSON text. -/
def intChars (n : Int) : List Char :=
  if n < 0 then '-' :: natChars n.natAbs else natChars n.natAbs

/-- Escape one character of a string body. -/
def escChar (c : Char) : List Char :=
  if c = '"' ∨ c = '\\' then ['\\', c] else [c]

/-- Escape a string body. -/
def escChars : List Char → List Char
  | [] => []
  | c :: cs => escChar c ++ escChars cs

/-- A quoted JSON string. -/
def strChars (s : String) : List Char :=
  '"' :: (escChars s.data ++ ['"'])

mutual
/-- `json.dumps` (default separators), producing the character list. -/
def dumpChars : Json → List Char
  | .null => ['n', 'u', 'l', 'l']
  | .num n => intChars n
  | .str s => strChars s
  | .bool false => ['f', 'a', 'l', 's', 'e']
  | .bool true => ['t', 'r', 'u', 'e']
  | .arr [] => ['[', ']']
  | .arr (x :: xs) => '[' :: dumpElems x xs
  | .obj [] => ['\x7b', '\x7d']
  | .obj (f :: fs) => '\x7b' :: dumpFields f fs
termination_by j => sizeOf j

/-- The elements of a non-empty array, comma-separated, closed by `]`. -/
def dumpElems : Json → List Json → List Char
  | x, [] => dumpChars x ++ [']']
  | x, y :: ys => dumpChars x ++ ',' :: ' ' :: dumpElems y ys
termination_by x xs => sizeOf x + sizeOf xs

/-- The fields of a non-empty object, comma-separated, closed by `\x7d`. -/
def dumpFields : (String × Json) → List (String × Json) → List Char
  | (k, v), [] => strChars k ++ ':' :: ' ' :: (dumpChars v ++ ['\x7d'])
  | (k, v), g :: gs => strChars k ++ ':' :: ' ' :: (dumpChars v ++ ',' :: ' ' :: dumpFields g gs)
termination_by f fs => sizeOf f + sizeOf fs
decreasing_by all_goals (simp <;> omega)
end

/-- `json.dumps`. -/
def dumps (j : Json) : String :=
  String.mk (dumpChars j)

mutual
/-- A structural size used to bound the parser's fuel. -/
def jsize : Json → Nat
  | .null => 1
  | .bool _ => 1
  | .num _ => 1
  | .str _ => 1
  | .arr xs => 2 + jsizeElems xs
  | .obj fs => 2 + jsizeFields fs
termination_by j => sizeOf j

def jsizeElems : List Json → Nat
  | [] => 0
  | x :: xs => jsize x + jsizeElems xs
termination_by xs => sizeOf xs

def jsizeFields : List (String × Json) → Nat
  | [] => 0
  | (_, v) :: fs => jsize v + jsizeFields fs
termination_by fs => sizeOf fs
decreasing_by all_goals (simp <;> omega)
end

/-- JSON insignificant whitespace. -/
def isWs (c : Char) : Bool :=
  c = ' ' || c = '\n' || c = '\t' || c = '\r'

/-- Drop leading whitespace. -/
def skipWs : List Char → List Char
  | [] => []
  | c :: cs => if isWs c then skipWs cs else c :: cs

/-- Consume a maximal run of digits into an accumulator. -/
def parseDigits : List Char → Nat → Nat × List Char
  | [], acc => (acc, [])
  | c :: cs, acc =>
    if c.isDigit then parseDigits cs (acc * 10 + digitVal c) else (acc, c :: cs)

/-- A natural number literal: at least one leading digit. -/
def parseNat : List Char → Option (Nat × List Char)
  | [] => none
  | c :: cs => if c.isDigit then some (parseDigits (c :: cs) 0) else none

/-- The body of a string literal after the opening quote, unescaping up to the
closing quote. -/
def parseStringBody : List Char → Option (List Char × List Char)
  | [] => none
  | c :: cs =>
    if c = '"' then some ([], cs)
    else if c = '\\' then
      match cs with
      | [] => none
      | c2 :: cs2 =>
        if c2 = '"' ∨ c2 = '\\' then
          (parseStringBody cs2).map (fun p => (c2 :: p.1, p.2))
        else none
    else (parseStringBody cs).map (fun p => (c :: p.1, p.2))
termination_by l => l.length
decreasing_by all_goals (simp <;> omega)

/-- True when the input does not continue with a digit (the boundary after a
number literal). -/
def noDigitHead : List Char → Bool
  | [] => true
  | c :: _ => !c.isDigit

mutual
/-- Dispatch of `parseVal` on the first significant character. -/
def parseValBody (fuel : Nat) (c : Char) (cs : List Char) : Option (Json × List Char) :=
      if c = 'n' then
        match cs with
        | c1 :: c2 :: c3 :: rest =>
          if c1 = 'u' ∧ c2 = 'l' ∧ c3 = 'l' then some (.null, rest) else none
        | _ => none
      else if c = 't' then
        match cs with
        | c1 :: c2 :: c3 :: rest =>
          if c1 = 'r' ∧ c2 = 'u' ∧ c3 = 'e' then some (.bool true, rest) else none
        | _ => none
      else if c = 'f' then
        match cs with
        | c1 :: c2 :: c3 :: c4 :: rest =>
          if c1 = 'a' ∧ c2 = 'l' ∧ c3 = 's' ∧ c4 = 'e' then some (.bool false, rest)
          else none
        | _ => none
      else if c = '"' then
        (parseStringBody cs).map (fun p => (Json.str (String.mk p.1), p.2))
      else if c = '[' then
        match skipWs cs with
        | [] => none
        | c2 :: rest2 =>
          if c2 = ']' then some (.arr [], rest2)
          else (parseElems fuel cs).map (fun p => (Json.arr p.1, p.2))
      else if c = '\x7b' then
        match skipWs cs with
        | [] => none
        | c2 :: rest2 =>
          if c2 = '\x7d' then some (.obj [], rest2)
          else (parseFields fuel cs).map (fun p => (Json.obj p.1, p.2))
      else if c = '-' then
        (parseNat cs).map (fun p => (Json.num (-(p.1 : Int)), p.2))
      else
        (parseNat (c :: cs)).map (fun p => (Json.num ((p.1 : Nat) : Int), p.2))

/-- `json.loads`'s recursive-descent value parser, fuelled. -/
def parseVal : Nat → List Char → Option (Json × List Char)
  | 0, _ => none
  | fuel + 1, s =>
    match skipWs s with
    | [] => none
    | c :: cs => parseValBody fuel c cs

/-- The elements of a non-empty array after `[`. -/
def parseElems : Nat → List Char → Option (List Json × List Char)
  | 0, _ => none
  | fuel + 1, s => (parseVal fuel s).bind (fun p => parseElemsStep fuel p.1 p.2)

/-- After one array element: a comma continues the list, `]` closes it. -/
def parseElemsStep (fuel : Nat) (v : Json) (t : List Char) :
    Option (List Json × List Char) :=
  match skipWs t with
  | [] => none
  | c :: rest =>
    if c = ',' then (parseElems fuel rest).map (fun q => (v :: q.1, q.2))
    else if c = ']' then some ([v], rest)
    else none

/-- The fields of a non-empty object after `\x7b`. -/
def parseFields : Nat → List Char → Option (List (String × Json) × List Char)
  | 0, _ => none
  | fuel + 1, s =>
    match skipWs s with
    | [] => none
    | c :: cs =>
      if c = '"' then
        (parseStringBody cs).bind (fun kp => parseFieldsAfterKey fuel kp.1 kp.2)
      else none

/-- After a field's key string: expect `:` and the value. -/
def parseFieldsAfterKey (fuel : Nat) (key : List Char) (t : List Char) :
    Option (List (String × Json) × List Char) :=
  match skipWs t with
  | [] => none
  | c :: rest =>
    if c = ':' then
      (parseVal fuel rest).bind (fun vp => parseFieldsAfterVal fuel key vp.1 vp.2)
    else none

/-- After a field's value: a comma continues, `\x7d` closes the object. -/
def parseFieldsAfterVal (fuel : Nat) (key : List Char) (v : Json) (t : List Char) :
    Option (List (String × Json) × List Char) :=
  match skipWs t with
  | [] => none
  | c :: rest =>
    if c = ',' then
      (parseFields fuel rest).map (fun q => ((String.mk key, v) :: q.1, q.2))
    else if c = '\x7d' then some ([(String.mk key, v)], rest)
    else none
end

/-- `json.loads`: parse a whole document, allowing trailing whitespace only.
Any failure models the `ValueError` the real module raises. -/
def loads (s : String) : Option Json :=
  match parseVal (s.length + 1) s.data with
  | some (v, rest) => if skipWs rest = [] then some v else none
  | none => none

end Json

namespace PendingSend

/-- `PendingSend._db_required_props`. -/
def required_props : List String := ["toaddr", "template_name", "template_vars_json"]

/-- `PendingSend._db_optional_props`. -/
def optional_props : List String := ["last_error", "retry_count", "sent_time"]

/-- `PendingSend.__init__`: an `AgedKeyedSqliteThing` whose birth-timestamp
(auto) property is `request_time`. -/
def init (id : Option Nat) (db : Table) : KeyedSqliteThing :=
  KeyedSqliteThing.init required_props optional_props ["request_time"] id db

/-- The `retry_count` property getter: `self._props.get('retry_count', 0)`.
The default applies only when the key is absent; a key stored as `None`
reads back as `None`. -/
def retry_count (r : KeyedSqliteThing) : Option Value :=
  (getKey r.props "retry_count").getD (some (Value.int 0))

/-- `retried`: `self.retry_count += 1` reads through the property getter and
writes through `__setattr__` into `_props`; no store access happens.  A
non-integer stored count would make the `+ 1` raise `TypeError`, modelled as
`none`. -/
def retried (r : KeyedSqliteThing) : Option KeyedSqliteThing :=
  match retry_count r with
  | some (Value.int n) => some (r.setattr "retry_count" (some (Value.int (n + 1))))
  | _ => none

/-- `retried` called `k` times, each call succeeding. -/
def retriedK : Nat → KeyedSqliteThing → Option KeyedSqliteThing
  | 0, r => some r
  | k + 1, r => (retried r).bind (retriedK k)

/-- The `sent_time` property getter. -/
def sent_time (r : KeyedSqliteThing) : Option String :=
  r.get_time_property "sent_time"

/-- `is_sent`: `self.sent_time is not None`. -/
def is_sent (r : KeyedSqliteThing) : Bool :=
  (sent_time r).isSome

/-- `mark_sent`: store the formatted current instant into the in-memory
`sent_time` property; no store access happens. -/
def mark_sent (now : String) (r : KeyedSqliteThing) : KeyedSqliteThing :=
  r.set_time_property "sent_time" now

/-- The `WHERE retry_count<? AND sent_time is null` predicate of the `Unsent`
query, with sqlite comparison semantics: a NULL `retry_count` makes the
comparison NULL (row excluded), and TEXT sorts after every INTEGER, so a text
cell is never `<` an integer bound. -/
def unsentFilter (max_retry : Int) (r : Row) : Bool :=
  (match Row.get r "retry_count" with
   | some (Value.int n) => decide (n < max_retry)
   | _ => false)
  && (Row.get r "sent_time").isNone

/-- sqlite `ORDER BY` comparison on one cell: NULL first, then INTEGER by
value, then TEXT in lexicographic order. -/
def valueLe : Option Value → Option Value → Bool
  | none, _ => true
  | some _, none => false
  | some (Value.int a), some (Value.int b) => decide (a ≤ b)
  | some (Value.int _), some (Value.text _) => true
  | some (Value.text _), some (Value.int _) => false
  | some (Value.text a), some (Value.text b) => decide (a ≤ b)

/-- `ORDER BY request_time ASC` on rows. -/
def rowLe (a b : Row) : Bool :=
  valueLe (Row.get a "request_time") (Row.get b "request_time")

/-- `PendingSend.Unsent`: `SELECT id FROM outbox WHERE retry_count<? AND
sent_time is null ORDER BY request_time ASC LIMIT ?`, then one `PendingSend`
constructed (hence loaded) per fetched id.  The generator is consumed against
a store that does not change during iteration, so the ids are materialised
first and each yield loads from the same table. -/
def Unsent (db : Table) (max_retry : Int) (max_results : Nat) :
    List KeyedSqliteThing :=
  (((db.filter (unsentFilter max_retry)).mergeSort rowLe).take max_results).map
    (fun row => init (some row.rowId) db)

/-- The `template_vars` property getter: `self._props.get('template_vars_json',
None)`; when a raw string is present it is decoded with `json.loads`.  A raw
value that is not text, or text that does not parse, raises in Python and is
modelled as `none`. -/
def template_vars (r : KeyedSqliteThing) : Option Json :=
  match (getKey r.props "template_vars_json").getD none with
  | some (Value.text raw) => Json.loads raw
  | _ => none

/-- The `template_vars` setter: `self._props['template_vars_json'] =
json.dumps(value)` — a direct dictionary write, not routed through
`__setattr__`. -/
def template_vars_set (r : KeyedSqliteThing) (value : Json) : KeyedSqliteThing :=
  let s := Json.dumps value
  { r with props := setKey r.props "template_vars_json" (some (Value.text s)) }

/-- A record whose declared property lists are those of `PendingSend`. -/
def IsPendingSend (r : KeyedSqliteThing) : Prop :=
  r.db_required_props = required_props ∧ r.db_optional_props = optional_props ∧
  r.db_auto_props = ["request_time"]

/-- Modelled from the spec: the `outbox` table's DDL is not under `src/` (only
the wrapper that talks to it is).  Section 6 of the spec declares the
`retry_count` column "optional, default 0" and `request_time` as the enqueue
time recorded when the row is inserted, so an insert that does not bind those
columns stores `0` and the current formatted instant respectively. -/
def outboxDefaults (now : String) : List (String × Value) :=
  [("retry_count", Value.int 0), ("request_time", Value.text now)]

/-- A freshly constructed entry (`PendingSend(connector)`) with its three
required properties assigned, ready to enqueue. -/
def freshEntry (addr tname tvars : String) : KeyedSqliteThing :=
  (((init none []).setattr "toaddr" (some (Value.text addr))).setattr
    "template_name" (some (Value.text tname))).setattr
    "template_vars_json" (some (Value.text tvars))

/-- The row an enqueue at instant `t` inserts: the fresh entry's three set
properties plus the `outbox` defaults for the columns the statement leaves
out. -/
def scenarioRow (t addr tname tvars : String) (i : Nat) : Row :=
  KeyedSqliteThing.insertRow (outboxDefaults t) i (freshEntry addr tname tvars).props

/-- Scenario D's record: `toaddr` and `template_name` assigned, the JSON
payload left unset. -/
def scenarioD : KeyedSqliteThing :=
  ((init none []).setattr "toaddr" (some (Value.text "ann@example.com"))).setattr
    "template_name" (some (Value.text "welcome"))

/-- The row of a single persisted, unsent entry (id 1, zero retries so
far). -/
def sampleRow : Row :=
  { rowId := 1,
    cells := [("toaddr", Value.text "ann@example.com"),
              ("template_name", Value.text "welcome"),
              ("template_vars_json", Value.text "null"),
              ("retry_count", Value.int 0),
              ("request_time", Value.text "2020-01-01 00:00:00")] }

/-- A one-row store holding just the sample entry. -/
def sampleDb : Table :=
  [sampleRow]

/-- The sample entry, loaded and marked sent in memory. -/
def demoMarked : KeyedSqliteThing :=
  mark_sent "2020-01-02 00:00:00" (init (some 1) sampleDb)

/-- The record a `save()` of the marked sample entry returns. -/
def demoE7 : KeyedSqliteThing :=
  match KeyedSqliteThing.save (outboxDefaults "2020-01-02 00:00:00") demoMarked
      sampleDb with
  | .ok (e, _) => e
  | .error _ => demoMarked

/-- The store after saving the marked sample entry. -/
def demoDb7 : Table :=
  match KeyedSqliteThing.save (outboxDefaults "2020-01-02 00:00:00") demoMarked
      sampleDb with
  | .ok (_, d) => d
  | .error _ => sampleDb

/-- Concrete enqueue instants for the fixed scan scenario, in strictly
increasing order. -/
def demoT1 : String := "2020-01-01 00:00:01"

def demoT2 : String := "2020-01-01 00:00:02"

def demoT3 : String := "2020-01-01 00:00:03"

/-- The record produced by the scenario's first `save` (enqueue at `demoT1`
into an empty store). -/
def demoE1 : KeyedSqliteThing :=
  match KeyedSqliteThing.save (outboxDefaults demoT1) (freshEntry "a@example.com" "hello" "null") [] with
  | .ok (e, _) => e
  | .error _ => freshEntry "a@example.com" "hello" "null"

/-- The store after the scenario's first `save`. -/
def demoDb1 : Table :=
  match KeyedSqliteThing.save (outboxDefaults demoT1) (freshEntry "a@example.com" "hello" "null") [] with
  | .ok (_, d) => d
  | .error _ => []

/-- The record produced by the scenario's second `save` (enqueue at `demoT2`). -/
def demoE2 : KeyedSqliteThing :=
  match KeyedSqliteThing.save (outboxDefaults demoT2) (freshEntry "b@example.com" "hello" "null") demoDb1 with
  | .ok (e, _) => e
  | .error _ => freshEntry "b@example.com" "hello" "null"

/-- The store after the scenario's second `save`. -/
def demoDb2 : Table :=
  match KeyedSqliteThing.save (outboxDefaults demoT2) (freshEntry "b@example.com" "hello" "null") demoDb1 with
  | .ok (_, d) => d
  | .error _ => demoDb1

/-- The record produced by the scenario's third `save` (enqueue at `demoT3`). -/
def demoE3 : KeyedSqliteThing :=
  match KeyedSqliteThing.save (outboxDefaults demoT3) (freshEntry "c@example.com" "hello" "null") demoDb2 with
  | .ok (e, _) => e
  | .error _ => freshEntry "c@example.com" "hello" "null"

/-- The store after the scenario's third `save`. -/
def demoDb3 : Table :=
  match KeyedSqliteThing.save (outboxDefaults demoT3) (freshEntry "c@example.com" "hello" "null") demoDb2 with
  | .ok (_, d) => d
  | .error _ => demoDb2

/-- Scenario E's template payload: the mapping `\x7b"name": "Ann", "count": 3\x7d`. -/
def demoJson : Json :=
  Json.obj [("name", Json.str "Ann"), ("count", Json.num 3)]

/-- Scenario E's record: the payload assigned through the `template_vars`
setter on top of scenario D's record. -/
def demoE8pre : KeyedSqliteThing :=
  template_vars_set scenarioD demoJson

/-- The record produced by saving scenario E's record into an empty store. -/
def demoE8 : KeyedSqliteThing :=
  match KeyedSqliteThing.save (outboxDefaults demoT1) demoE8pre [] with
  | .ok (e, _) => e
  | .error _ => demoE8pre

/-- The store after saving scenario E's record. -/
def demoDb8 : Table :=
  match KeyedSqliteThing.save (outboxDefaults demoT1) demoE8pre [] with
  | .ok (_, d) => d
  | .error _ => []

end PendingSend

/-! ## Association-list lemmas -/

theorem getKey_setKey_self {α : Type} (m : List (String × α)) (k : String) (v : α) :
    getKey (setKey m k v) k = some v := by
  induction m with
  | nil => simp [setKey, getKey]
  | cons kv rest ih =>
    obtain ⟨k', v'⟩ := kv
    by_cases h : k' = k
    · simp [setKey, h, getKey]
    · simp [setKey, h, getKey, ih]

theorem getKey_setKey_ne {α : Type} (m : List (String × α)) {k k' : String} (v : α)
    (hne : k' ≠ k) : getKey (setKey m k v) k' = getKey m k' := by
  have hkk : ¬(k = k') := fun h => hne h.symm
  induction m with
  | nil => simp [setKey, getKey, hkk]
  | cons kv rest ih =>
    obtain ⟨k1, v1⟩ := kv
    by_cases h : k1 = k
    · subst h
      simp [setKey, getKey, hkk]
    · simp only [setKey, if_neg h, getKey]
      by_cases h' : k1 = k'
      · simp [h']
      · simp [h', ih]

theorem getKey_eq_none_of_not_mem_keys {α : Type} {m : List (String × α)} {k : String}
    (h : k ∉ m.map Prod.fst) : getKey m k = none := by
  induction m with
  | nil => rfl
  | cons kv rest ih =>
    obtain ⟨k1, v1⟩ := kv
    simp only [List.map_cons, List.mem_cons] at h
    push_neg at h
    have h1 : ¬(k1 = k) := fun hh => h.1 hh.symm
    simp [getKey, h1, ih h.2]

theorem mem_keys_of_hasKey {α : Type} {m : List (String × α)} {k : String}
    (h : hasKey m k) : k ∈ m.map Prod.fst := by
  by_contra hmem
  rw [hasKey, getKey_eq_none_of_not_mem_keys hmem] at h
  simp at h

theorem keys_setKey_subset {α : Type} (m : List (String × α)) (k : String) (v : α) :
    (setKey m k v).map Prod.fst ⊆ k :: m.map Prod.fst := by
  induction m with
  | nil =>
    intro x hx
    simp only [setKey, List.map_cons, List.map_nil, List.mem_singleton] at hx
    exact List.mem_cons.2 (Or.inl hx)
  | cons kv rest ih =>
    obtain ⟨k1, v1⟩ := kv
    by_cases h : k1 = k
    · subst h
      intro x hx
      simp only [setKey, if_pos, List.map_cons, List.mem_cons] at hx
      rcases hx with hx | hx
      · exact List.mem_cons.2 (Or.inl hx)
      · exact List.mem_cons.2 (Or.inr (List.mem_cons.2 (Or.inr hx)))
    · intro x hx
      simp only [setKey, if_neg h, List.map_cons, List.mem_cons] at hx
      rcases hx with hx | hx
      · exact List.mem_cons.2 (Or.inr (List.mem_cons.2 (Or.inl hx)))
      · rcases List.mem_cons.1 (ih hx) with h1 | h2
        · exact List.mem_cons.2 (Or.inl h1)
        · exact List.mem_cons.2 (Or.inr (List.mem_cons.2 (Or.inr h2)))

theorem keys_setKey_nodup {α : Type} {m : List (String × α)} (k : String) (v : α)
    (h : (m.map Prod.fst).Nodup) : ((setKey m k v).map Prod.fst).Nodup := by
  induction m with
  | nil => simp [setKey]
  | cons kv rest ih =>
    obtain ⟨k1, v1⟩ := kv
    simp only [List.map_cons, List.nodup_cons] at h
    by_cases hh : k1 = k
    · subst hh
      simp only [setKey, if_pos, List.map_cons, List.nodup_cons]
      exact h
    · simp only [setKey, if_neg hh, List.map_cons, List.nodup_cons]
      refine ⟨fun hmem => ?_, ih h.2⟩
      rcases List.mem_cons.1 (keys_setKey_subset rest k v hmem) with h1 | h2
      · exact hh h1
      · exact h.1 h2

theorem getKey_append {α : Type} (m1 m2 : List (String × α)) (k : String) :
    getKey (m1 ++ m2) k =
      match getKey m1 k with
      | some v => some v
      | none => getKey m2 k := by
  induction m1 with
  | nil => simp [getKey]
  | cons kv rest ih =>
    obtain ⟨k', v'⟩ := kv
    by_cases h : k' = k
    · simp [getKey, h]
    · simp [getKey, h, ih]

/-! ## Row and table lemmas -/

theorem getKey_filter_ne_self {α : Type} (m : List (String × α)) (c : String) :
    getKey (m.filter (fun p => p.1 != c)) c = none := by
  apply getKey_eq_none_of_not_mem_keys
  intro h
  rcases List.mem_map.1 h with ⟨p, hp, hfst⟩
  have := List.of_mem_filter hp
  rw [hfst] at this
  simp at this

theorem getKey_filter_ne_other {α : Type} (m : List (String × α)) {c c' : String}
    (h : c' ≠ c) : getKey (m.filter (fun p => p.1 != c)) c' = getKey m c' := by
  induction m with
  | nil => rfl
  | cons kv rest ih =>
    obtain ⟨k1, v1⟩ := kv
    by_cases hk : k1 = c
    · subst hk
      have h1 : ¬(k1 = c') := fun hh => h hh.symm
      simp only [List.filter_cons]
      simp [getKey, h1, ih]
    · have hb : (k1 != c) = true := by simpa using hk
      simp only [List.filter_cons, hb, if_pos]
      by_cases hk' : k1 = c'
      · simp [getKey, hk']
      · simp [getKey, hk', ih]

theorem Row.get_setCell_self (r : Row) (c : String) (v : Option Value) :
    (r.setCell c v).get c = v := by
  match v with
  | some w => simp [Row.setCell, Row.get, getKey_setKey_self]
  | none => simp [Row.setCell, Row.get, getKey_filter_ne_self]

theorem Row.get_setCell_ne (r : Row) {c c' : String} (v : Option Value) (h : c' ≠ c) :
    (r.setCell c v).get c' = r.get c' := by
  match v with
  | some w => simp [Row.setCell, Row.get, getKey_setKey_ne _ _ h]
  | none => simp [Row.setCell, Row.get, getKey_filter_ne_other _ h]

theorem Row.rowId_setCell (r : Row) (c : String) (v : Option Value) :
    (r.setCell c v).rowId = r.rowId := by
  match v with
  | some w => rfl
  | none => rfl

theorem rowId_applyAssignsRow (a : List (String × Option Value)) (r : Row) :
    (applyAssignsRow a r).rowId = r.rowId := by
  induction a generalizing r with
  | nil => rfl
  | cons kv rest ih =>
    show (applyAssignsRow rest (r.setCell kv.1 kv.2)).rowId = r.rowId
    rw [ih, Row.rowId_setCell]

theorem get_applyAssignsRow {a : List (String × Option Value)} (r : Row) (k : String)
    (hnd : (a.map Prod.fst).Nodup) :
    (applyAssignsRow a r).get k =
      if hasKey a k then (getKey a k).getD none else r.get k := by
  induction a generalizing r with
  | nil => simp [applyAssignsRow, hasKey, getKey]
  | cons kv rest ih =>
    obtain ⟨k0, v0⟩ := kv
    simp only [List.map_cons, List.nodup_cons] at hnd
    have step : applyAssignsRow ((k0, v0) :: rest) r = applyAssignsRow rest (r.setCell k0 v0) :=
      rfl
    rw [step, ih _ hnd.2]
    by_cases hk : k = k0
    · subst hk
      have habs : hasKey rest k = false := by
        by_contra hcon
        simp only [Bool.not_eq_false] at hcon
        exact hnd.1 (mem_keys_of_hasKey hcon)
      have h1 : hasKey ((k, v0) :: rest) k = true := by simp [hasKey, getKey]
      have h2 : getKey ((k, v0) :: rest) k = some v0 := by simp [getKey]
      rw [habs, h1, h2]
      simp [Row.get_setCell_self]
    · have hnk : ¬(k0 = k) := fun hh => hk hh.symm
      have h1 : hasKey ((k0, v0) :: rest) k = hasKey rest k := by
        simp [hasKey, getKey, hnk]
      have h2 : getKey ((k0, v0) :: rest) k = getKey rest k := by
        simp [getKey, hnk]
      rw [h1, h2, Row.get_setCell_ne _ _ hk]

/-! ## Table lookup lemmas -/

theorem selectById_eq_none {db : Table} {i : Nat} :
    selectById db i = none ↔ ∀ r ∈ db, r.rowId ≠ i := by
  unfold selectById
  rw [List.find?_eq_none]
  constructor
  · intro h r hr
    have := h r hr
    simpa using this
  · intro h r hr
    simpa using h r hr

theorem selectById_cons_self {r0 : Row} {i : Nat} (rest : Table) (h : r0.rowId = i) :
    selectById (r0 :: rest) i = some r0 := by
  unfold selectById
  exact List.find?_cons_of_pos _ (by simp [h])

theorem selectById_cons_ne {r0 : Row} {i : Nat} (rest : Table) (h : r0.rowId ≠ i) :
    selectById (r0 :: rest) i = selectById rest i := by
  unfold selectById
  exact List.find?_cons_of_neg _ (by simp [h])

theorem selectById_mem_nodup {db : Table} (hids : (db.map Row.rowId).Nodup)
    {r : Row} (hr : r ∈ db) : selectById db r.rowId = some r := by
  induction db with
  | nil => cases hr
  | cons r0 rest ih =>
    simp only [List.map_cons, List.nodup_cons] at hids
    rcases List.mem_cons.1 hr with h | h
    · subst h
      exact selectById_cons_self rest rfl
    · have hne : r0.rowId ≠ r.rowId := by
        intro he
        exact hids.1 (he ▸ List.mem_map_of_mem Row.rowId h)
      rw [selectById_cons_ne rest hne]
      exact ih hids.2 h

theorem selectById_append (db1 db2 : Table) (i : Nat) :
    selectById (db1 ++ db2) i =
      match selectById db1 i with
      | some r => some r
      | none => selectById db2 i := by
  induction db1 with
  | nil => simp [selectById]
  | cons r0 rest ih =>
    by_cases h : r0.rowId = i
    · rw [List.cons_append, selectById_cons_self _ h, selectById_cons_self _ h]
    · rw [List.cons_append, selectById_cons_ne _ h, selectById_cons_ne _ h]
      exact ih

theorem foldl_max_le_init (db : Table) : ∀ b : Nat, b ≤ db.foldl (fun m r => max m r.rowId) b := by
  induction db with
  | nil => intro b; exact le_refl b
  | cons r0 rest ih =>
    intro b
    exact le_trans (le_max_left b r0.rowId) (ih (max b r0.rowId))

theorem rowId_le_foldl_max {db : Table} {r : Row} (hr : r ∈ db) (b : Nat) :
    r.rowId ≤ db.foldl (fun m r => max m r.rowId) b := by
  induction db generalizing b with
  | nil => cases hr
  | cons r0 rest ih =>
    rcases List.mem_cons.1 hr with h | h
    · subst h
      exact le_trans (le_max_right b r.rowId) (foldl_max_le_init rest (max b r.rowId))
    · exact ih h _

theorem mem_rowId_lt_nextRowId {db : Table} {r : Row} (hr : r ∈ db) :
    r.rowId < nextRowId db :=
  Nat.lt_succ_of_le (rowId_le_foldl_max hr 0)

theorem selectById_nextRowId (db : Table) : selectById db (nextRowId db) = none :=
  selectById_eq_none.2 (fun r hr => Nat.ne_of_lt (mem_rowId_lt_nextRowId hr))

theorem selectById_append_fresh {db : Table} {row : Row}
    (h : selectById db row.rowId = none) :
    selectById (db ++ [row]) row.rowId = some row := by
  rw [selectById_append, h]
  show selectById [row] row.rowId = some row
  exact selectById_cons_self [] rfl

theorem selectById_updateById (db : Table) (i : Nat)
    (a : List (String × Option Value)) :
    selectById (updateById db i a) i = (selectById db i).map (applyAssignsRow a) := by
  induction db with
  | nil => rfl
  | cons r0 rest ih =>
    have hmap : updateById (r0 :: rest) i a =
        (if r0.rowId = i then applyAssignsRow a r0 else r0) :: updateById rest i a := by
      unfold updateById
      rw [List.map_cons]
    by_cases h : r0.rowId = i
    · rw [hmap, if_pos h, selectById_cons_self _ (by rw [rowId_applyAssignsRow, h]),
        selectById_cons_self rest h]
      rfl
    · rw [hmap, if_neg h, selectById_cons_ne _ h, selectById_cons_ne rest h]
      exact ih

theorem mem_updateById {db : Table} {i : Nat} {a : List (String × Option Value)}
    {r' : Row} (h : r' ∈ updateById db i a) :
    (r' ∈ db ∧ r'.rowId ≠ i) ∨ ∃ r, r ∈ db ∧ r.rowId = i ∧ r' = applyAssignsRow a r := by
  rcases List.mem_map.1 h with ⟨r, hr, hmap⟩
  by_cases hid : r.rowId = i
  · right
    exact ⟨r, hr, hid, by rw [← hmap, if_pos hid]⟩
  · left
    rw [← hmap, if_neg hid]
    exact ⟨hr, hid⟩

/-! ## Load and construction lemmas -/

namespace KeyedSqliteThing

theorem getKey_loadProps (row : Row) (ps : List String)
    (acc : List (String × Option Value)) (k : String) :
    getKey (loadProps row ps acc) k =
      if k ∈ ps ∧ (row.get k).isSome = true then some (row.get k) else getKey acc k := by
  induction ps generalizing acc with
  | nil => simp [loadProps]
  | cons p ps' ih =>
    have step : loadProps row (p :: ps') acc =
        loadProps row ps' (match row.get p with
          | some v => setKey acc p (some v)
          | none => acc) := rfl
    rw [step, ih]
    by_cases hA : k ∈ ps' ∧ (row.get k).isSome = true
    · rw [if_pos hA, if_pos ⟨List.mem_cons.2 (Or.inr hA.1), hA.2⟩]
    · rw [if_neg hA]
      by_cases hk : k = p
      · subst hk
        cases hrg : row.get k with
        | some v =>
          rw [if_pos ⟨List.mem_cons_self k ps', by simp⟩]
          exact getKey_setKey_self acc k (some v)
        | none =>
          rw [if_neg (by simp)]
      · have hcond : ¬(k ∈ p :: ps' ∧ (row.get k).isSome = true) := by
          intro hc
          rcases List.mem_cons.1 hc.1 with h1 | h1
          · exact hk h1
          · exact hA ⟨h1, hc.2⟩
        rw [if_neg hcond]
        cases hrp : row.get p with
        | some v => exact getKey_setKey_ne _ _ hk
        | none => rfl

theorem keys_loadProps_subset (row : Row) (ps : List String)
    (acc : List (String × Option Value)) :
    (loadProps row ps acc).map Prod.fst ⊆ acc.map Prod.fst ++ ps := by
  induction ps generalizing acc with
  | nil => simp [loadProps]
  | cons p ps' ih =>
    intro x hx
    have step : loadProps row (p :: ps') acc =
        loadProps row ps' (match row.get p with
          | some v => setKey acc p (some v)
          | none => acc) := rfl
    rw [step] at hx
    have hx2 := ih _ hx
    rcases List.mem_append.1 hx2 with h1 | h1
    · cases hrp : row.get p with
      | some v =>
        rw [hrp] at h1
        rcases List.mem_cons.1 (keys_setKey_subset acc p (some v) h1) with h2 | h2
        · exact List.mem_append.2 (Or.inr (List.mem_cons.2 (Or.inl h2)))
        · exact List.mem_append.2 (Or.inl h2)
      | none =>
        rw [hrp] at h1
        exact List.mem_append.2 (Or.inl h1)
    · exact List.mem_append.2 (Or.inr (List.mem_cons.2 (Or.inr h1)))

theorem keys_loadProps_nodup (row : Row) (ps : List String)
    {acc : List (String × Option Value)} (h : (acc.map Prod.fst).Nodup) :
    ((loadProps row ps acc).map Prod.fst).Nodup := by
  induction ps generalizing acc with
  | nil => exact h
  | cons p ps' ih =>
    have step : loadProps row (p :: ps') acc =
        loadProps row ps' (match row.get p with
          | some v => setKey acc p (some v)
          | none => acc) := rfl
    rw [step]
    cases hrp : row.get p with
    | some v => exact ih (keys_setKey_nodup p (some v) h)
    | none => exact ih h

theorem load_fields (r : KeyedSqliteThing) (db : Table) :
    (r.load db).id = r.id ∧ (r.load db).db_required_props = r.db_required_props ∧
    (r.load db).db_optional_props = r.db_optional_props ∧
    (r.load db).db_auto_props = r.db_auto_props := by
  obtain ⟨id0, props0, indb0, req0, opt0, auto0⟩ := r
  cases id0 with
  | none => simp [load]
  | some i =>
    cases hsel : selectById db i with
    | none => simp [load, hsel]
    | some row => simp [load, hsel]

theorem init_of_found {db : Table} {i : Nat} {row : Row}
    (h : selectById db i = some row) (req opt auto : List String) :
    init req opt auto (some i) db =
      { id := some i,
        props := loadProps row ((req ++ opt) ++ auto) [],
        in_db := true,
        db_required_props := req, db_optional_props := opt, db_auto_props := auto } := by
  unfold init load
  simp [h, db_props]

theorem init_of_not_found {db : Table} {i : Nat}
    (h : selectById db i = none) (req opt auto : List String) :
    init req opt auto (some i) db =
      { id := some i, props := [], in_db := false,
        db_required_props := req, db_optional_props := opt, db_auto_props := auto } := by
  unfold init load
  simp [h]

theorem init_none (req opt auto : List String) (db : Table) :
    init req opt auto none db =
      { id := none, props := [], in_db := false,
        db_required_props := req, db_optional_props := opt, db_auto_props := auto } := rfl

theorem prop_init_found {db : Table} {i : Nat} {row : Row}
    (h : selectById db i = some row) (req opt auto : List String) (k : String) :
    (init req opt auto (some i) db).prop k =
      if k ∈ (req ++ opt) ++ auto then row.get k else none := by
  rw [init_of_found h]
  unfold prop
  simp only
  rw [getKey_loadProps]
  by_cases h1 : k ∈ (req ++ opt) ++ auto ∧ (row.get k).isSome = true
  · rw [if_pos h1, if_pos h1.1]
    cases hrg : row.get k with
    | some v => simp
    | none => simp [hrg] at h1
  · rw [if_neg h1]
    by_cases h2 : k ∈ (req ++ opt) ++ auto
    · rw [if_pos h2]
      have h3 : (row.get k).isSome = false := by
        by_contra hc
        simp only [Bool.not_eq_false] at hc
        exact h1 ⟨h2, hc⟩
      have h4 : row.get k = none := by
        cases hv : row.get k
        · rfl
        · rw [hv] at h3; simp at h3
      rw [h4]
      simp [getKey]
    · rw [if_neg h2]
      simp [getKey]

theorem init_id (req opt auto : List String) (id : Option Nat) (db : Table) :
    (init req opt auto id db).id = id := by
  cases id with
  | none => rfl
  | some i =>
    cases h : selectById db i with
    | none => rw [init_of_not_found h]
    | some row => rw [init_of_found h]

theorem keys_init_nodup (req opt auto : List String) (id : Option Nat) (db : Table) :
    (((init req opt auto id db).props).map Prod.fst).Nodup := by
  cases id with
  | none => simp [init_none]
  | some i =>
    cases h : selectById db i with
    | none => rw [init_of_not_found h]; simp
    | some row =>
      rw [init_of_found h]
      exact keys_loadProps_nodup row _ (by simp)

/-! ## Save and delete lemmas -/

theorem save_of_missing {defaults : List (String × Value)} {r : KeyedSqliteThing}
    {db : Table} (h : r.missing_props ≠ []) :
    save defaults r db = .error (.missingRequiredProperties r.missing_props) := by
  unfold save
  rw [if_pos h]

theorem save_update {defaults : List (String × Value)} {r : KeyedSqliteThing}
    {db : Table} {i : Nat} (hmiss : r.missing_props = []) (hin : r.in_db = true)
    (hid : r.id = some i) :
    save defaults r db = .ok (r, updateById db i r.props) := by
  unfold save
  rw [if_neg (by simp [hmiss]), hid]
  simp [hin]

theorem save_insert_some {defaults : List (String × Value)} {r : KeyedSqliteThing}
    {db : Table} {i : Nat} (hmiss : r.missing_props = []) (hin : r.in_db = false)
    (hid : r.id = some i) (hfresh : selectById db i = none) :
    save defaults r db =
      .ok ({ r with in_db := true }, db ++ [insertRow defaults i r.props]) := by
  unfold save
  rw [if_neg (by simp [hmiss]), hid]
  simp [hin, hfresh]

theorem save_insert_none {defaults : List (String × Value)} {r : KeyedSqliteThing}
    {db : Table} (hmiss : r.missing_props = []) (hin : r.in_db = false)
    (hid : r.id = none) :
    save defaults r db =
      .ok ({ r with id := some (nextRowId db), in_db := true },
        db ++ [insertRow defaults (nextRowId db) r.props]) := by
  unfold save
  rw [if_neg (by simp [hmiss]), hid]
  simp [hin]

theorem save_ok_inv {defaults : List (String × Value)} {r r' : KeyedSqliteThing}
    {db db' : Table} (h : save defaults r db = .ok (r', db')) :
    r.missing_props = [] ∧
    ((∃ i, r.in_db = true ∧ r.id = some i ∧ r' = r ∧ db' = updateById db i r.props) ∨
     (r.in_db = true ∧ r.id = none ∧ r' = r ∧ db' = db) ∨
     (∃ i, r.in_db = false ∧ r.id = some i ∧ selectById db i = none ∧
        r'.id = some i ∧ r'.in_db = true ∧ sameContent r r' ∧
        db' = db ++ [insertRow defaults i r.props]) ∨
     (r.in_db = false ∧ r.id = none ∧ r'.id = some (nextRowId db) ∧ r'.in_db = true ∧
        sameContent r r' ∧
        db' = db ++ [insertRow defaults (nextRowId db) r.props])) := by
  by_cases hmiss : r.missing_props = []
  · refine ⟨hmiss, ?_⟩
    cases hin : r.in_db with
    | true =>
      cases hid : r.id with
      | some i =>
        rw [save_update hmiss hin hid] at h
        simp only [Except.ok.injEq, Prod.mk.injEq] at h
        exact Or.inl ⟨i, rfl, rfl, h.1.symm, h.2.symm⟩
      | none =>
        have hs : save defaults r db = .ok (r, db) := by
          unfold save
          rw [if_neg (by simp [hmiss]), hid]
          simp [hin]
        rw [hs] at h
        simp only [Except.ok.injEq, Prod.mk.injEq] at h
        exact Or.inr (Or.inl ⟨rfl, rfl, h.1.symm, h.2.symm⟩)
    | false =>
      cases hid : r.id with
      | some i =>
        cases hfresh : selectById db i with
        | none =>
          rw [save_insert_some hmiss hin hid hfresh] at h
          simp only [Except.ok.injEq, Prod.mk.injEq] at h
          obtain ⟨h1, h2⟩ := h
          refine Or.inr (Or.inr (Or.inl ⟨i, rfl, rfl, hfresh, ?_, ?_, ?_, h2.symm⟩))
          · rw [← h1]; exact hid
          · rw [← h1]
          · rw [← h1]; exact ⟨rfl, rfl, rfl, rfl⟩
        | some row =>
          have hs : save defaults r db = .error .constraintViolation := by
            unfold save
            rw [if_neg (by simp [hmiss]), hid]
            simp [hin, hfresh]
          rw [hs] at h
          simp at h
      | none =>
        rw [save_insert_none hmiss hin hid] at h
        simp only [Except.ok.injEq, Prod.mk.injEq] at h
        obtain ⟨h1, h2⟩ := h
        refine Or.inr (Or.inr (Or.inr ⟨rfl, rfl, ?_, ?_, ?_, h2.symm⟩))
        · rw [← h1]
        · rw [← h1]
        · rw [← h1]; exact ⟨rfl, rfl, rfl, rfl⟩
  · rw [save_of_missing hmiss] at h
    simp at h

theorem filterMap_props_cons_some (k0 : String) (w : Value)
    (rest : List (String × Option Value)) :
    ((k0, some w) :: rest).filterMap (fun kv => kv.2.map (fun v => (kv.1, v))) =
      (k0, w) :: rest.filterMap (fun kv => kv.2.map (fun v => (kv.1, v))) := rfl

theorem filterMap_props_cons_none (k0 : String)
    (rest : List (String × Option Value)) :
    ((k0, (none : Option Value)) :: rest).filterMap (fun kv => kv.2.map (fun v => (kv.1, v))) =
      rest.filterMap (fun kv => kv.2.map (fun v => (kv.1, v))) := rfl

theorem keys_filterMap_subset (props : List (String × Option Value)) :
    (props.filterMap (fun kv => kv.2.map (fun v => (kv.1, v)))).map Prod.fst ⊆
      props.map Prod.fst := by
  induction props with
  | nil => simp
  | cons kv rest ih =>
    obtain ⟨k0, v0⟩ := kv
    cases v0 with
    | none =>
      rw [filterMap_props_cons_none]
      intro x hx
      simp only [List.map_cons]
      exact List.mem_cons.2 (Or.inr (ih hx))
    | some w =>
      rw [filterMap_props_cons_some]
      intro x hx
      simp only [List.map_cons, List.mem_cons] at hx ⊢
      rcases hx with h | h
      · exact Or.inl h
      · exact Or.inr (ih h)

theorem getKey_filterMap_props {props : List (String × Option Value)} {k : String}
    (hnd : (props.map Prod.fst).Nodup) :
    getKey (props.filterMap (fun kv => kv.2.map (fun v => (kv.1, v)))) k =
      (getKey props k).getD none := by
  induction props with
  | nil => simp [getKey]
  | cons kv rest ih =>
    obtain ⟨k0, v0⟩ := kv
    simp only [List.map_cons, List.nodup_cons] at hnd
    cases v0 with
    | some w =>
      rw [filterMap_props_cons_some]
      by_cases hk : k0 = k
      · simp [getKey, hk]
      · simp [getKey, hk, ih hnd.2]
    | none =>
      rw [filterMap_props_cons_none]
      by_cases hk : k0 = k
      · subst hk
        have hnone : getKey (rest.filterMap (fun kv => kv.2.map (fun v => (kv.1, v)))) k0 = none := by
          apply getKey_eq_none_of_not_mem_keys
          intro hc
          exact hnd.1 (keys_filterMap_subset rest hc)
        rw [hnone]
        simp [getKey]
      · rw [ih hnd.2]
        simp [getKey, hk]

theorem get_insertRow_hasKey {defaults : List (String × Value)} {i : Nat}
    {props : List (String × Option Value)} {k : String}
    (hnd : (props.map Prod.fst).Nodup) (h : hasKey props k) :
    (insertRow defaults i props).get k = (getKey props k).getD none := by
  unfold insertRow Row.get
  simp only
  rw [getKey_append, getKey_filterMap_props hnd]
  cases hg : getKey props k with
  | some v =>
    cases v with
    | some w => simp
    | none =>
      simp only [Option.getD]
      have hnone : getKey (defaults.filter (fun cv => !(hasKey props cv.1))) k = none := by
        apply getKey_eq_none_of_not_mem_keys
        intro hc
        rcases List.mem_map.1 hc with ⟨cv, hcv, hfst⟩
        have hmem := List.of_mem_filter hcv
        rw [hfst, h] at hmem
        simp at hmem
      rw [hnone]
  | none =>
    rw [hasKey, hg] at h
    simp at h

theorem delete_not_in_db {r : KeyedSqliteThing} {db : Table} (h : r.in_db = false) :
    r.delete db = .error (.unknownProperty "self") := by
  unfold delete
  rw [h]
  rfl

theorem delete_in_db {r : KeyedSqliteThing} {db : Table} (h : r.in_db = true) :
    r.delete db = .ok ({ r with in_db := false },
      match r.id with
      | some i => deleteById db i
      | none => db) := by
  unfold delete
  rw [h]
  cases hid : r.id with
  | some i => simp
  | none => simp

/-- The shared round-trip core: a successful `save` followed by constructing a
fresh same-schema instance on the saved identifier reads back, for every
property key that was set, the value it had at save time.  The hypotheses are
facts every reachable record satisfies: its property keys are declared (dict
keys are unique in Python), and `_in_db` is only true when its row exists. -/
theorem prop_save_reload {defaults : List (String × Value)}
    {r r' : KeyedSqliteThing} {db db' : Table} {i : Nat}
    (hkeys : r.props.map Prod.fst ⊆ r.db_props ++ r.db_auto_props)
    (hnd : (r.props.map Prod.fst).Nodup)
    (hdb : r.in_db = true → ∃ j, r.id = some j ∧ (selectById db j).isSome)
    (hsave : save defaults r db = .ok (r', db'))
    (hid : r'.id = some i) :
    ∀ k, hasKey r.props k →
      (init r.db_required_props r.db_optional_props r.db_auto_props
        (some i) db').prop k = r.prop k := by
  intro k hk
  have hkmem : k ∈ (r.db_required_props ++ r.db_optional_props) ++ r.db_auto_props := by
    have h1 := hkeys (mem_keys_of_hasKey hk)
    simpa [db_props] using h1
  rcases (save_ok_inv hsave).2 with
    ⟨i0, hin, hid0, hr', hdb'⟩ | ⟨hin, hid0, _hr', _hdb'⟩ |
    ⟨i0, _hin, hid0, hfresh, hid', _hin', _hsc, hdb'⟩ | ⟨_hin, hid0, hid', _hin', _hsc, hdb'⟩
  · -- UPDATE of an existing row
    rw [hr'] at hid
    have hii : i0 = i := Option.some.inj (hid0.symm.trans hid)
    subst hii
    obtain ⟨j, hj, hsel⟩ := hdb hin
    have hji : j = i0 := Option.some.inj (hj.symm.trans hid0)
    subst hji
    obtain ⟨row, hrow⟩ := Option.isSome_iff_exists.1 hsel
    subst hdb'
    have hsel' : selectById (updateById db j r.props) j = some (applyAssignsRow r.props row) := by
      rw [selectById_updateById, hrow]
      rfl
    rw [prop_init_found hsel', if_pos hkmem, get_applyAssignsRow row k hnd, if_pos hk]
    rfl
  · -- UPDATE with a NULL identifier cannot happen for a record whose row exists
    obtain ⟨j, hj, _⟩ := hdb hin
    rw [hid0] at hj
    simp at hj
  · -- INSERT with an explicit fresh identifier
    have hii : i0 = i := Option.some.inj (hid'.symm.trans hid)
    subst hii
    subst hdb'
    have hsel' : selectById (db ++ [insertRow defaults i0 r.props]) i0 =
        some (insertRow defaults i0 r.props) :=
      selectById_append_fresh hfresh
    rw [prop_init_found hsel', if_pos hkmem, get_insertRow_hasKey hnd hk]
    rfl
  · -- INSERT adopting the store-generated identifier
    have hii : nextRowId db = i := Option.some.inj (hid'.symm.trans hid)
    subst hii
    subst hdb'
    have hsel' : selectById (db ++ [insertRow defaults (nextRowId db) r.props]) (nextRowId db) =
        some (insertRow defaults (nextRowId db) r.props) :=
      selectById_append_fresh (selectById_nextRowId db)
    rw [prop_init_found hsel', if_pos hkmem, get_insertRow_hasKey hnd hk]
    rfl

theorem setattr_fields (r : KeyedSqliteThing) (name : String) (v : Option Value) :
    (r.setattr name v).id = r.id ∧ (r.setattr name v).in_db = r.in_db ∧
    (r.setattr name v).db_required_props = r.db_required_props ∧
    (r.setattr name v).db_optional_props = r.db_optional_props ∧
    (r.setattr name v).db_auto_props = r.db_auto_props := by
  unfold setattr
  by_cases h : name ∈ r.db_props
  · rw [if_pos h]
    exact ⟨rfl, rfl, rfl, rfl, rfl⟩
  · rw [if_neg h]
    exact ⟨rfl, rfl, rfl, rfl, rfl⟩

theorem init_schema (req opt auto : List String) (id : Option Nat) (db : Table) :
    (init req opt auto id db).db_required_props = req ∧
    (init req opt auto id db).db_optional_props = opt ∧
    (init req opt auto id db).db_auto_props = auto := by
  cases id with
  | none => exact ⟨rfl, rfl, rfl⟩
  | some i =>
    cases h : selectById db i with
    | none => rw [init_of_not_found h]; exact ⟨rfl, rfl, rfl⟩
    | some row => rw [init_of_found h]; exact ⟨rfl, rfl, rfl⟩

theorem getKey_props_init_found {db : Table} {i : Nat} {row : Row}
    (h : selectById db i = some row) (req opt auto : List String) (k : String)
    (hmem : k ∈ (req ++ opt) ++ auto) :
    getKey (init req opt auto (some i) db).props k =
      if (row.get k).isSome = true then some (row.get k) else none := by
  rw [init_of_found h]
  show getKey (loadProps row ((req ++ opt) ++ auto) []) k = _
  rw [getKey_loadProps]
  by_cases hs : (row.get k).isSome = true
  · rw [if_pos ⟨hmem, hs⟩, if_pos hs]
  · rw [if_neg (by intro hc; exact hs hc.2), if_neg hs]
    rfl

end KeyedSqliteThing

namespace PendingSend

theorem valueLe_total : ∀ a b, valueLe a b = true ∨ valueLe b a = true := by
  intro a b
  match a, b with
  | none, _ => exact Or.inl rfl
  | some v, none => exact Or.inr rfl
  | some (Value.int x), some (Value.int y) =>
    simp only [valueLe, decide_eq_true_eq]
    exact le_total x y
  | some (Value.int _), some (Value.text _) => exact Or.inl rfl
  | some (Value.text _), some (Value.int _) => exact Or.inr rfl
  | some (Value.text x), some (Value.text y) =>
    simp only [valueLe, decide_eq_true_eq]
    exact le_total x y

theorem valueLe_trans : ∀ a b c, valueLe a b = true → valueLe b c = true →
    valueLe a c = true := by
  intro a b c hab hbc
  match a, b, c with
  | none, _, _ => rfl
  | some _, none, _ => exact absurd hab (by simp [valueLe])
  | some _, some _, none => exact absurd hbc (by simp [valueLe])
  | some (Value.int x), some (Value.int y), some (Value.int z) =>
    simp only [valueLe, decide_eq_true_eq] at hab hbc ⊢
    exact le_trans hab hbc
  | some (Value.int _), some (Value.int _), some (Value.text _) => rfl
  | some (Value.int _), some (Value.text _), some (Value.int _) =>
    exact absurd hbc (by simp [valueLe])
  | some (Value.int _), some (Value.text _), some (Value.text _) => rfl
  | some (Value.text _), some (Value.int _), some _ =>
    exact absurd hab (by simp [valueLe])
  | some (Value.text _), some (Value.text _), some (Value.int _) =>
    exact absurd hbc (by simp [valueLe])
  | some (Value.text x), some (Value.text y), some (Value.text z) =>
    simp only [valueLe, decide_eq_true_eq] at hab hbc ⊢
    exact le_trans hab hbc

theorem rowLe_total : ∀ a b : Row, rowLe a b || rowLe b a := by
  intro a b
  unfold rowLe
  rcases valueLe_total (a.get "request_time") (b.get "request_time") with h | h
  · simp [h]
  · simp [h]

theorem rowLe_trans : ∀ a b c : Row, rowLe a b → rowLe b c → rowLe a c := by
  intro a b c hab hbc
  exact valueLe_trans _ _ _ hab hbc

/-- Decompose membership in the `Unsent` result: every yielded entry is the
freshly loaded record of a stored row passing the scan's `WHERE` clause. -/
theorem mem_unsent {db : Table} {m : Int} {n : Nat} {e : KeyedSqliteThing}
    (h : e ∈ Unsent db m n) :
    ∃ row, row ∈ db ∧ unsentFilter m row = true ∧ e = init (some row.rowId) db := by
  unfold Unsent at h
  rcases List.mem_map.1 h with ⟨row, hrow, he⟩
  have h1 : row ∈ (db.filter (unsentFilter m)).mergeSort rowLe :=
    List.mem_of_mem_take hrow
  have h2 := List.mem_mergeSort.1 h1
  exact ⟨row, List.mem_of_mem_filter h2, List.of_mem_filter h2, he.symm⟩

/-- The loaded `request_time` of a scan entry is exactly its row's cell. -/
theorem prop_request_time {db : Table} {row : Row}
    (hids : (db.map Row.rowId).Nodup) (hrow : row ∈ db) :
    (init (some row.rowId) db).prop "request_time" = row.get "request_time" := by
  unfold init
  rw [KeyedSqliteThing.prop_init_found (selectById_mem_nodup hids hrow)]
  rw [if_pos (by simp [required_props, optional_props])]

end PendingSend

namespace Json

/-! ## JSON printer and parser lemmas -/

theorem digitChar_isDigit (d : Nat) : (digitChar d).isDigit = true := by
  match d with
  | 0 | 1 | 2 | 3 | 4 | 5 | 6 | 7 | 8 | 9 => decide
  | n + 10 => rfl

theorem digitVal_digitChar (d : Nat) (h : d < 10) : digitVal (digitChar d) = d := by
  match d with
  | 0 | 1 | 2 | 3 | 4 | 5 | 6 | 7 | 8 | 9 => decide
  | n + 10 => exact absurd h (by omega)

theorem natChars_ne_nil (n : Nat) : natChars n ≠ [] := by
  rw [natChars]
  by_cases h : n < 10
  · rw [dif_pos h]
    simp
  · rw [dif_neg h]
    simp

theorem mem_natChars_isDigit (n : Nat) : ∀ c ∈ natChars n, c.isDigit = true := by
  induction n using Nat.strong_induction_on with
  | _ n ih =>
    intro c hc
    rw [natChars] at hc
    by_cases h : n < 10
    · rw [dif_pos h] at hc
      simp only [List.mem_singleton] at hc
      subst hc
      exact digitChar_isDigit n
    · rw [dif_neg h] at hc
      rcases List.mem_append.1 hc with h1 | h1
      · exact ih (n / 10) (Nat.div_lt_self (by omega) (by omega)) c h1
      · simp only [List.mem_singleton] at h1
        subst h1
        exact digitChar_isDigit (n % 10)

theorem isDigit_not_ws {c : Char} (h : c.isDigit = true) : isWs c = false := by
  by_contra hc
  simp only [Bool.not_eq_false, isWs, Bool.or_eq_true, decide_eq_true_eq] at hc
  rcases hc with ((h1 | h1) | h1) | h1 <;> (subst h1; simp at h)

theorem isDigit_ne {c c' : Char} (h : c.isDigit = true) (h' : c'.isDigit = false) :
    c ≠ c' := by
  intro he
  subst he
  rw [h] at h'
  cases h'

theorem skipWs_cons_not_ws {c : Char} {cs : List Char} (h : isWs c = false) :
    skipWs (c :: cs) = c :: cs := by
  simp [skipWs, h]

theorem skipWs_cons_ws {c : Char} {cs : List Char} (h : isWs c = true) :
    skipWs (c :: cs) = skipWs cs := by
  simp [skipWs, h]

theorem parseVal_ws_cons (fuel : Nat) {c : Char} (s : List Char) (h : isWs c = true) :
    parseVal fuel (c :: s) = parseVal fuel s := by
  cases fuel with
  | zero => simp [parseVal]
  | succ g =>
    rw [parseVal, parseVal, skipWs_cons_ws h]

theorem parseVal_cons (g : Nat) {c : Char} (cs : List Char) (h : isWs c = false) :
    parseVal (g + 1) (c :: cs) = parseValBody g c cs := by
  rw [parseVal, skipWs_cons_not_ws h]

theorem parseDigits_noDigit {rest : List Char} (h : noDigitHead rest = true)
    (acc : Nat) : parseDigits rest acc = (acc, rest) := by
  cases rest with
  | nil => rfl
  | cons c cs =>
    simp only [noDigitHead, Bool.not_eq_true'] at h
    rw [parseDigits, if_neg (by simp [h])]

theorem parseDigits_append (n : Nat) : ∀ (acc : Nat) (rest : List Char),
    parseDigits (natChars n ++ rest) acc =
      parseDigits rest (acc * 10 ^ (natChars n).length + n) := by
  induction n using Nat.strong_induction_on with
  | _ n ih =>
    intro acc rest
    rw [natChars]
    by_cases h : n < 10
    · rw [dif_pos h]
      simp only [List.cons_append, List.nil_append]
      rw [parseDigits, if_pos (digitChar_isDigit n), digitVal_digitChar n h]
      simp [parseDigits]
    · rw [dif_neg h]
      rw [List.append_assoc]
      simp only [List.cons_append, List.nil_append]
      rw [ih (n / 10) (Nat.div_lt_self (by omega) (by omega)) acc
        (digitChar (n % 10) :: rest)]
      rw [parseDigits, if_pos (digitChar_isDigit (n % 10)),
        digitVal_digitChar (n % 10) (Nat.mod_lt n (by omega))]
      congr 1
      · simp only [List.length_append, List.length_singleton]
        calc (acc * 10 ^ (natChars (n / 10)).length + n / 10) * 10 + n % 10
            = acc * (10 ^ (natChars (n / 10)).length * 10) + (10 * (n / 10) + n % 10) := by
              ring
          _ = acc * 10 ^ ((natChars (n / 10)).length + 1) + n := by
              rw [pow_succ, Nat.div_add_mod]

theorem parseNat_natChars (n : Nat) (rest : List Char) (h : noDigitHead rest = true) :
    parseNat (natChars n ++ rest) = some (n, rest) := by
  have hdig : parseDigits (natChars n ++ rest) 0 = (n, rest) := by
    rw [parseDigits_append, parseDigits_noDigit h]
    simp
  cases hnc : natChars n with
  | nil => exact absurd hnc (natChars_ne_nil n)
  | cons c cs =>
    have hcd : c.isDigit = true :=
      mem_natChars_isDigit n c (hnc ▸ List.mem_cons_self c cs)
    rw [List.cons_append, parseNat, if_pos hcd]
    have hback : c :: (cs ++ rest) = natChars n ++ rest := by
      rw [hnc, List.cons_append]
    rw [hback, hdig]

theorem parseStringBody_escChars (cs : List Char) : ∀ rest : List Char,
    parseStringBody (escChars cs ++ ('"' :: rest)) = some (cs, rest) := by
  induction cs with
  | nil =>
    intro rest
    show parseStringBody ('"' :: rest) = some ([], rest)
    conv_lhs => rw [parseStringBody.eq_def]
    simp
  | cons c cs' ih =>
    intro rest
    show parseStringBody ((escChar c ++ escChars cs') ++ ('"' :: rest)) = _
    by_cases hc : c = '"' ∨ c = '\\'
    · rw [escChar, if_pos hc]
      rw [show (['\\', c] ++ escChars cs') ++ ('"' :: rest)
            = '\\' :: c :: (escChars cs' ++ ('"' :: rest)) by simp]
      conv_lhs => rw [parseStringBody.eq_def]
      simp [hc, ih rest]
    · rw [escChar, if_neg hc]
      push_neg at hc
      rw [show ([c] ++ escChars cs') ++ ('"' :: rest)
            = c :: (escChars cs' ++ ('"' :: rest)) by simp]
      conv_lhs => rw [parseStringBody.eq_def]
      simp [hc.1, hc.2, ih rest]

theorem noDigitHead_cons (c : Char) (cs : List Char) :
    noDigitHead (c :: cs) = !c.isDigit := rfl

theorem jsize_pos (v : Json) : 1 ≤ jsize v := by
  cases v <;> (rw [jsize]) <;> omega

theorem parseElems_ws_cons (fuel : Nat) {c : Char} (s : List Char) (h : isWs c = true) :
    parseElems fuel (c :: s) = parseElems fuel s := by
  cases fuel with
  | zero => simp [parseElems]
  | succ g => rw [parseElems, parseElems, parseVal_ws_cons g s h]

theorem dumpChars_shape (v : Json) :
    ∃ c cs, dumpChars v = c :: cs ∧ isWs c = false ∧ c ≠ ']' ∧ c ≠ '\x7d' := by
  cases v with
  | null => exact ⟨'n', _, by rw [dumpChars], by decide, by decide, by decide⟩
  | bool b =>
    cases b with
    | true => exact ⟨'t', _, by rw [dumpChars], by decide, by decide, by decide⟩
    | false => exact ⟨'f', _, by rw [dumpChars], by decide, by decide, by decide⟩
  | num n =>
    by_cases hneg : n < 0
    · refine ⟨'-', natChars n.natAbs, ?_, by decide, by decide, by decide⟩
      rw [dumpChars, intChars, if_pos hneg]
    · cases hn : natChars n.natAbs with
      | nil => exact absurd hn (natChars_ne_nil _)
      | cons c cs =>
        have hcd : c.isDigit = true :=
          mem_natChars_isDigit _ c (hn ▸ List.mem_cons_self c cs)
        refine ⟨c, cs, ?_, isDigit_not_ws hcd, isDigit_ne hcd (by decide),
          isDigit_ne hcd (by decide)⟩
        rw [dumpChars, intChars, if_neg hneg, hn]
  | str s => exact ⟨'"', _, by rw [dumpChars, strChars], by decide, by decide, by decide⟩
  | arr xs =>
    cases xs with
    | nil => exact ⟨'[', _, by rw [dumpChars], by decide, by decide, by decide⟩
    | cons x xs' => exact ⟨'[', _, by rw [dumpChars], by decide, by decide, by decide⟩
  | obj fs =>
    cases fs with
    | nil => exact ⟨'\x7b', _, by rw [dumpChars], by decide, by decide, by decide⟩
    | cons f fs' => exact ⟨'\x7b', _, by rw [dumpChars], by decide, by decide, by decide⟩

theorem dumpElems_shape (x : Json) (xs : List Json) :
    ∃ c cs, dumpElems x xs = c :: cs ∧ isWs c = false ∧ c ≠ ']' := by
  obtain ⟨c, cs, hd, hws, hne, _⟩ := dumpChars_shape x
  cases xs with
  | nil => exact ⟨c, cs ++ [']'], by rw [dumpElems, hd, List.cons_append], hws, hne⟩
  | cons y ys =>
    exact ⟨c, cs ++ ',' :: ' ' :: dumpElems y ys,
      by rw [dumpElems, hd, List.cons_append], hws, hne⟩

theorem parseFields_ws_cons (fuel : Nat) {c : Char} (s : List Char) (h : isWs c = true) :
    parseFields fuel (c :: s) = parseFields fuel s := by
  cases fuel with
  | zero => simp [parseFields]
  | succ g => rw [parseFields, parseFields, skipWs_cons_ws h]

theorem parseFields_quote (g : Nat) (cs : List Char) :
    parseFields (g + 1) ('"' :: cs) =
      (parseStringBody cs).bind (fun kp => parseFieldsAfterKey g kp.1 kp.2) := by
  rw [parseFields, skipWs_cons_not_ws (by decide)]
  rfl

theorem parseElemsStep_cons (fuel : Nat) (v : Json) (c : Char) (r : List Char)
    (h : isWs c = false) :
    parseElemsStep fuel v (c :: r) =
      if c = ',' then (parseElems fuel r).map (fun q => (v :: q.1, q.2))
      else if c = ']' then some ([v], r)
      else none := by
  rw [parseElemsStep, skipWs_cons_not_ws h]

theorem parseFieldsAfterKey_cons (fuel : Nat) (key : List Char) (c : Char)
    (r : List Char) (h : isWs c = false) :
    parseFieldsAfterKey fuel key (c :: r) =
      (if c = ':' then
        (parseVal fuel r).bind (fun vp => parseFieldsAfterVal fuel key vp.1 vp.2)
      else none) := by
  rw [parseFieldsAfterKey, skipWs_cons_not_ws h]

theorem parseFieldsAfterVal_cons (fuel : Nat) (key : List Char) (v : Json) (c : Char)
    (r : List Char) (h : isWs c = false) :
    parseFieldsAfterVal fuel key v (c :: r) =
      (if c = ',' then
        (parseFields fuel r).map (fun q => ((String.mk key, v) :: q.1, q.2))
      else if c = '\x7d' then some ([(String.mk key, v)], r)
      else none) := by
  rw [parseFieldsAfterVal, skipWs_cons_not_ws h]

/-- The mutual round trip: parsing the printer's output (followed by any
non-digit continuation) consumes exactly the printed text and returns the
printed value, its elements, or its fields. -/
theorem parse_dump : ∀ fuel : Nat,
    (∀ (v : Json) (rest : List Char), jsize v ≤ fuel → noDigitHead rest = true →
      parseVal fuel (dumpChars v ++ rest) = some (v, rest)) ∧
    (∀ (x : Json) (xs : List Json) (rest : List Char),
      jsize x + jsizeElems xs + 1 ≤ fuel →
      parseElems fuel (dumpElems x xs ++ rest) = some (x :: xs, rest)) ∧
    (∀ (k : String) (v : Json) (fs : List (String × Json)) (rest : List Char),
      jsize v + jsizeFields fs + 1 ≤ fuel →
      parseFields fuel (dumpFields (k, v) fs ++ rest) = some ((k, v) :: fs, rest)) := by
  intro fuel
  induction fuel using Nat.strong_induction_on with
  | _ fuel ih =>
    match fuel with
    | 0 =>
      refine ⟨?_, ?_, ?_⟩
      · intro v rest hsz _
        have := jsize_pos v
        omega
      · intro x xs rest hsz
        exact absurd hsz (by omega)
      · intro k v fs rest hsz
        exact absurd hsz (by omega)
    | g + 1 =>
      obtain ⟨ihv, ihe, ihf⟩ := ih g (by omega)
      refine ⟨?_, ?_, ?_⟩
      · -- values
        intro v rest hsz hnd
        cases v with
        | null =>
          rw [show dumpChars .null ++ rest = 'n' :: 'u' :: 'l' :: 'l' :: rest by
            rw [dumpChars]; simp]
          rw [parseVal_cons g _ (by decide)]
          simp [parseValBody.eq_def]
        | bool b =>
          cases b with
          | true =>
            rw [show dumpChars (.bool true) ++ rest = 't' :: 'r' :: 'u' :: 'e' :: rest by
              rw [dumpChars]; simp]
            rw [parseVal_cons g _ (by decide)]
            simp [parseValBody.eq_def]
          | false =>
            rw [show dumpChars (.bool false) ++ rest
                = 'f' :: 'a' :: 'l' :: 's' :: 'e' :: rest by rw [dumpChars]; simp]
            rw [parseVal_cons g _ (by decide)]
            simp [parseValBody.eq_def]
        | num n =>
          rw [show dumpChars (.num n) = intChars n by rw [dumpChars]]
          by_cases hneg : n < 0
          · rw [intChars, if_pos hneg, List.cons_append,
              parseVal_cons g _ (by decide)]
            rw [parseValBody.eq_def]
            rw [if_neg (by decide), if_neg (by decide), if_neg (by decide),
              if_neg (by decide), if_neg (by decide), if_neg (by decide), if_pos rfl]
            rw [parseNat_natChars n.natAbs rest hnd]
            have h0 : -((n.natAbs : Int)) = n := by omega
            show some (Json.num (-((n.natAbs : Nat) : Int)), rest) = some (Json.num n, rest)
            rw [h0]
          · cases hn : natChars n.natAbs with
            | nil => exact absurd hn (natChars_ne_nil _)
            | cons c cs =>
              have hcd : c.isDigit = true :=
                mem_natChars_isDigit _ c (hn ▸ List.mem_cons_self c cs)
              rw [intChars, if_neg hneg, hn, List.cons_append,
                parseVal_cons g _ (isDigit_not_ws hcd)]
              rw [parseValBody.eq_def]
              rw [if_neg (isDigit_ne hcd (by decide)), if_neg (isDigit_ne hcd (by decide)),
                if_neg (isDigit_ne hcd (by decide)), if_neg (isDigit_ne hcd (by decide)),
                if_neg (isDigit_ne hcd (by decide)), if_neg (isDigit_ne hcd (by decide)),
                if_neg (isDigit_ne hcd (by decide))]
              have hback : c :: (cs ++ rest) = natChars n.natAbs ++ rest := by
                rw [hn, List.cons_append]
              rw [hback, parseNat_natChars n.natAbs rest hnd]
              have h0 : ((n.natAbs : Int)) = n := by omega
              show some (Json.num ((n.natAbs : Nat) : Int), rest) = some (Json.num n, rest)
              rw [h0]
        | str s =>
          rw [show dumpChars (.str s) = '"' :: (escChars s.data ++ ['"']) by
            rw [dumpChars, strChars]]
          rw [List.cons_append, parseVal_cons g _ (by decide)]
          rw [parseValBody.eq_def]
          rw [if_neg (by decide), if_neg (by decide), if_neg (by decide), if_pos rfl]
          rw [show (escChars s.data ++ ['"']) ++ rest = escChars s.data ++ ('"' :: rest) by
            simp]
          rw [parseStringBody_escChars s.data rest]
          rfl
        | arr xs =>
          cases xs with
          | nil =>
            rw [show dumpChars (.arr []) ++ rest = '[' :: (']' :: rest) by
              rw [dumpChars]; simp]
            rw [parseVal_cons g _ (by decide)]
            rw [parseValBody.eq_def]
            rw [if_neg (by decide), if_neg (by decide), if_neg (by decide),
              if_neg (by decide), if_pos rfl]
            rw [skipWs_cons_not_ws (by decide)]
            simp
          | cons x xs' =>
            rw [show dumpChars (.arr (x :: xs')) = '[' :: dumpElems x xs' by
              rw [dumpChars]]
            rw [List.cons_append, parseVal_cons g _ (by decide)]
            rw [parseValBody.eq_def]
            rw [if_neg (by decide), if_neg (by decide), if_neg (by decide),
              if_neg (by decide), if_pos rfl]
            obtain ⟨c0, cs0, hde, hws0, hne0⟩ := dumpElems_shape x xs'
            rw [hde, List.cons_append, skipWs_cons_not_ws hws0]
            have harg : c0 :: (cs0 ++ rest) = dumpElems x xs' ++ rest := by
              rw [hde, List.cons_append]
            have hfit : jsize x + jsizeElems xs' + 1 ≤ g := by
              rw [jsize] at hsz
              rw [jsizeElems] at hsz
              omega
            simp only [if_neg hne0]
            rw [harg, ihe x xs' rest hfit]
            rfl
        | obj fs =>
          cases fs with
          | nil =>
            rw [show dumpChars (.obj []) ++ rest = '\x7b' :: ('\x7d' :: rest) by
              rw [dumpChars]; simp]
            rw [parseVal_cons g _ (by decide)]
            rw [parseValBody.eq_def]
            rw [if_neg (by decide), if_neg (by decide), if_neg (by decide),
              if_neg (by decide), if_neg (by decide), if_pos rfl]
            rw [skipWs_cons_not_ws (by decide)]
            simp
          | cons f fs' =>
            obtain ⟨k, v⟩ := f
            rw [show dumpChars (.obj ((k, v) :: fs')) = '\x7b' :: dumpFields (k, v) fs' by
              rw [dumpChars]]
            rw [List.cons_append, parseVal_cons g _ (by decide)]
            rw [parseValBody.eq_def]
            rw [if_neg (by decide), if_neg (by decide), if_neg (by decide),
              if_neg (by decide), if_neg (by decide), if_pos rfl]
            have hdf : ∃ cs0, dumpFields (k, v) fs' = '"' :: cs0 := by
              cases fs' with
              | nil => exact ⟨_, by rw [dumpFields, strChars, List.cons_append]⟩
              | cons g2 gs => exact ⟨_, by rw [dumpFields, strChars, List.cons_append]⟩
            obtain ⟨cs0, hdf⟩ := hdf
            rw [hdf, List.cons_append, skipWs_cons_not_ws (by decide)]
            have harg : '"' :: (cs0 ++ rest) = dumpFields (k, v) fs' ++ rest := by
              rw [hdf, List.cons_append]
            have hfit : jsize v + jsizeFields fs' + 1 ≤ g := by
              rw [jsize] at hsz
              rw [jsizeFields] at hsz
              omega
            simp only [if_neg (show ¬(('"' : Char) = '\x7d') by decide)]
            rw [harg, ihf k v fs' rest hfit]
            rfl
      · -- elements
        intro x xs rest hsz
        rw [parseElems]
        cases xs with
        | nil =>
          rw [show dumpElems x [] ++ rest = dumpChars x ++ (']' :: rest) by
            rw [dumpElems]; simp]
          have hfit : jsize x ≤ g := by
            rw [jsizeElems] at hsz
            omega
          rw [ihv x (']' :: rest) hfit (by rw [noDigitHead_cons]; decide)]
          simp only [Option.some_bind]
          rw [parseElemsStep_cons g x ']' rest (by decide)]
          rw [if_neg (by decide), if_pos rfl]
        | cons y ys =>
          rw [show dumpElems x (y :: ys) ++ rest
              = dumpChars x ++ (',' :: ' ' :: (dumpElems y ys ++ rest)) by
            rw [dumpElems]; simp]
          have hfit : jsize x ≤ g := by
            rw [jsizeElems] at hsz
            have := jsize_pos y
            omega
          rw [ihv x _ hfit (by rw [noDigitHead_cons]; decide)]
          simp only [Option.some_bind]
          rw [parseElemsStep_cons g x ',' _ (by decide), if_pos rfl]
          have hfit2 : jsize y + jsizeElems ys + 1 ≤ g := by
            rw [jsizeElems] at hsz
            have := jsize_pos x
            omega
          rw [parseElems_ws_cons g _ (by decide), ihe y ys rest hfit2]
          rfl
      · -- fields
        intro k v fs rest hsz
        cases fs with
        | nil =>
          rw [show dumpFields (k, v) [] ++ rest
              = '"' :: (escChars k.data ++ ('"' :: (':' :: ' ' :: (dumpChars v ++ ('\x7d' :: rest))))) by
            rw [dumpFields, strChars]; simp]
          rw [parseFields_quote, parseStringBody_escChars k.data _]
          simp only [Option.some_bind]
          rw [parseFieldsAfterKey_cons g k.data ':' _ (by decide), if_pos rfl]
          have hfit : jsize v ≤ g := by
            rw [jsizeFields] at hsz
            omega
          rw [parseVal_ws_cons g _ (by decide), ihv v ('\x7d' :: rest) hfit
            (by rw [noDigitHead_cons]; decide)]
          simp only [Option.some_bind]
          rw [parseFieldsAfterVal_cons g k.data v '\x7d' _ (by decide)]
          rw [if_neg (by decide), if_pos rfl]
        | cons g2 gs =>
          obtain ⟨k2, v2⟩ := g2
          rw [show dumpFields (k, v) ((k2, v2) :: gs) ++ rest
              = '"' :: (escChars k.data ++ ('"' :: (':' :: ' ' :: (dumpChars v ++ (',' :: ' ' :: (dumpFields (k2, v2) gs ++ rest)))))) by
            rw [dumpFields, strChars]; simp]
          rw [parseFields_quote, parseStringBody_escChars k.data _]
          simp only [Option.some_bind]
          rw [parseFieldsAfterKey_cons g k.data ':' _ (by decide), if_pos rfl]
          have hfit : jsize v ≤ g := by
            rw [jsizeFields] at hsz
            omega
          rw [parseVal_ws_cons g _ (by decide), ihv v _ hfit
            (by rw [noDigitHead_cons]; decide)]
          simp only [Option.some_bind]
          rw [parseFieldsAfterVal_cons g k.data v ',' _ (by decide), if_pos rfl]
          have hfit2 : jsize v2 + jsizeFields gs + 1 ≤ g := by
            simp only [jsizeFields] at hsz
            have := jsize_pos v
            omega
          rw [parseFields_ws_cons g _ (by decide), ihf k2 v2 gs rest hfit2]
          rfl

mutual
theorem jsize_le_dump : (v : Json) → jsize v ≤ (dumpChars v).length
  | .null => by simp only [jsize, dumpChars]; simp
  | .bool b => by cases b <;> (simp only [jsize, dumpChars]; simp)
  | .num n => by
    simp only [jsize, dumpChars, intChars]
    by_cases h : n < 0
    · rw [if_pos h]
      simp
    · rw [if_neg h]
      cases hn : natChars n.natAbs with
      | nil => exact absurd hn (natChars_ne_nil _)
      | cons c cs => simp
  | .str s => by
    simp only [jsize, dumpChars, strChars, List.length_cons, List.length_append]
    omega
  | .arr [] => by simp only [jsize, jsizeElems, dumpChars]; simp
  | .arr (x :: xs) => by
    have h := jsizeElems_le_dump x xs
    simp only [jsize, jsizeElems, dumpChars, List.length_cons]
    omega
  | .obj [] => by simp only [jsize, jsizeFields, dumpChars]; simp
  | .obj ((k, v) :: fs) => by
    have h := jsizeFields_le_dump k v fs
    simp only [jsize, jsizeFields, dumpChars, List.length_cons]
    omega
termination_by v => sizeOf v

theorem jsizeElems_le_dump : (x : Json) → (xs : List Json) →
    jsize x + jsizeElems xs + 1 ≤ (dumpElems x xs).length
  | x, [] => by
    have h := jsize_le_dump x
    simp only [jsizeElems, dumpElems, List.length_append, List.length_cons,
      List.length_nil]
    omega
  | x, y :: ys => by
    have h1 := jsize_le_dump x
    have h2 := jsizeElems_le_dump y ys
    simp only [jsizeElems, dumpElems, List.length_append, List.length_cons]
    omega
termination_by x xs => sizeOf x + sizeOf xs

theorem jsizeFields_le_dump : (k : String) → (v : Json) → (fs : List (String × Json)) →
    jsize v + jsizeFields fs + 1 ≤ (dumpFields (k, v) fs).length
  | k, v, [] => by
    have h := jsize_le_dump v
    simp only [jsizeFields, dumpFields, strChars, List.length_append,
      List.length_cons, List.length_nil]
    omega
  | k, v, (k2, v2) :: gs => by
    have h1 := jsize_le_dump v
    have h2 := jsizeFields_le_dump k2 v2 gs
    simp only [jsizeFields, dumpFields, strChars, List.length_append,
      List.length_cons]
    omega
termination_by k v fs => sizeOf v + sizeOf fs
decreasing_by all_goals (simp <;> omega)
end

/-- `json.loads` inverts `json.dumps`: the structured value survives the text
round trip unchanged. -/
theorem json_loads_dumps (v : Json) : loads (dumps v) = some v := by
  have hbound : jsize v ≤ (dumps v).length + 1 := by
    have h := jsize_le_dump v
    show jsize v ≤ (dumpChars v).length + 1
    omega
  have h2 : parseVal ((dumps v).length + 1) (dumps v).data = some (v, []) := by
    have hd : (dumps v).data = dumpChars v ++ [] := by
      show dumpChars v = dumpChars v ++ []
      rw [List.append_nil]
    rw [hd]
    exact (parse_dump _).1 v [] hbound rfl
  rw [loads, h2]
  simp [skipWs]

end Json

/-! ## The claims -/

namespace KeyedSqliteThing

/-- C5: `save()` on a record with at least one required property absent fails
with `MissingRequiredProperties`, and the missing list names exactly the
required fields absent from `_props`; the error result carries no new store
state and the record (its `_in_db` flag included) is untouched. -/
theorem C5_save_missing_required (defaults : List (String × Value))
    (r : KeyedSqliteThing) (db : Table) (h : r.missing_props ≠ []) :
    save defaults r db = .error (.missingRequiredProperties r.missing_props) ∧
    ∀ p, p ∈ r.missing_props ↔
      (p ∈ r.db_required_props ∧ hasKey r.props p = false) := by
  refine ⟨save_of_missing h, fun p => ?_⟩
  simp [missing_props, List.mem_filter]

/-- C5 witness: scenario D — `toaddr` and `template_name` set, the JSON
payload unset — fails naming exactly `template_vars_json`. -/
theorem C5_save_missing_required_witness :
    save (PendingSend.outboxDefaults "2020-01-01 00:00:00") PendingSend.scenarioD []
        = .error (.missingRequiredProperties PendingSend.scenarioD.missing_props) ∧
    ∀ p, p ∈ PendingSend.scenarioD.missing_props ↔
      (p ∈ PendingSend.scenarioD.db_required_props ∧
        hasKey PendingSend.scenarioD.props p = false) :=
  C5_save_missing_required _ _ _ (by decide)

/-- C6: the claim's error half does not hold as stated.  On a record with
`_in_db` false, `delete()` raises `AttributeError("No property 'self'")`:
building the intended "not in database" message evaluates `self.self._id`, and
the attribute lookup of `self` falls through to `__getattr__`, which raises
before the intended exception exists.  On a persisted record the behaviour
half holds: the row matching the identifier is removed, `_in_db` is cleared,
and the identifier and all in-memory properties are retained. -/
theorem C6_delete_behaviour (r : KeyedSqliteThing) (db : Table) :
    (r.in_db = false → r.delete db = .error (.unknownProperty "self")) ∧
    (r.in_db = true →
      r.delete db = .ok ({ r with in_db := false },
        match r.id with
        | some i => deleteById db i
        | none => db)) :=
  ⟨fun h => delete_not_in_db h, fun h => delete_in_db h⟩

/-- C6 witness: a freshly constructed entry's `delete()` raises the
`AttributeError` of the `self.self._id` lookup, not the intended message. -/
theorem C6_delete_behaviour_witness :
    delete (PendingSend.init none []) [] = .error (.unknownProperty "self") :=
  (C6_delete_behaviour (PendingSend.init none []) []).1 (by decide)

/-- C4: the round trip.  A successful `save` of a record whose keys are
declared and unique, against a store that holds its row whenever `_in_db`
claims so, yields an identifier under which a freshly constructed same-schema
instance (whose `__init__` performs `_load`) reads back every property that
was set with the value it had at save time. -/
theorem C4_save_load_round_trip (defaults : List (String × Value))
    (r r' : KeyedSqliteThing) (db db' : Table)
    (hkeys : r.props.map Prod.fst ⊆ r.db_props ++ r.db_auto_props)
    (hnd : (r.props.map Prod.fst).Nodup)
    (hdb : r.in_db = true → ∃ j, r.id = some j ∧ (selectById db j).isSome)
    (hsave : save defaults r db = .ok (r', db')) :
    ∃ i, r'.id = some i ∧
      ∀ k, hasKey r.props k →
        (init r.db_required_props r.db_optional_props r.db_auto_props
          (some i) db').prop k = r.prop k := by
  obtain ⟨i, hid⟩ : ∃ i, r'.id = some i := by
    rcases (save_ok_inv hsave).2 with
      ⟨i0, hin, hid0, hr', _⟩ | ⟨hin, hid0, _, _⟩ |
      ⟨i0, _, _, _, hid', _, _, _⟩ | ⟨_, _, hid', _, _, _⟩
    · exact ⟨i0, by rw [hr', hid0]⟩
    · obtain ⟨j, hj, _⟩ := hdb hin
      rw [hid0] at hj
      cases hj
    · exact ⟨i0, hid'⟩
    · exact ⟨_, hid'⟩
  exact ⟨i, hid, prop_save_reload hkeys hnd hdb hsave hid⟩

/-- C4 witness: enqueueing a fully populated fresh entry into an empty store
and reconstructing on the resulting identifier reads every set property back. -/
theorem C4_save_load_round_trip_witness :
    ∃ i, PendingSend.demoE1.id = some i ∧
      ∀ k, hasKey (PendingSend.freshEntry "a@example.com" "hello" "null").props k →
        (init (PendingSend.freshEntry "a@example.com" "hello" "null").db_required_props
          (PendingSend.freshEntry "a@example.com" "hello" "null").db_optional_props
          (PendingSend.freshEntry "a@example.com" "hello" "null").db_auto_props
          (some i) PendingSend.demoDb1).prop k
          = (PendingSend.freshEntry "a@example.com" "hello" "null").prop k :=
  C4_save_load_round_trip (PendingSend.outboxDefaults PendingSend.demoT1)
    (PendingSend.freshEntry "a@example.com" "hello" "null") PendingSend.demoE1
    [] PendingSend.demoDb1
    (by decide) (by decide) (fun h => absurd h (by decide)) rfl

/-- `__setattr__` preserves the declared-keys invariant: a declared name lands
in `_props` (and is itself declared), an undeclared one leaves `_props`
alone. -/
theorem goodKeys_setattr {r : KeyedSqliteThing} (h : GoodKeys r)
    (name : String) (v : Option Value) : GoodKeys (r.setattr name v) := by
  unfold setattr
  by_cases hn : name ∈ r.db_props
  · rw [if_pos hn]
    intro x hx
    rcases List.mem_cons.1 (keys_setKey_subset r.props name v hx) with h1 | h1
    · subst h1
      exact List.mem_append.2 (Or.inl hn)
    · exact h h1
  · rw [if_neg hn]
    exact h

/-- `__init__` establishes the declared-keys invariant: `_props` starts empty
and `_load` copies only declared or auto-tracked columns. -/
theorem goodKeys_init (req opt auto : List String) (id : Option Nat)
    (db : Table) : GoodKeys (init req opt auto id db) := by
  cases id with
  | none =>
    intro x hx
    rw [init_none] at hx
    simp at hx
  | some i =>
    cases hsel : selectById db i with
    | none =>
      intro x hx
      rw [init_of_not_found hsel] at hx
      simp at hx
    | some row =>
      intro x hx
      rw [init_of_found hsel] at hx
      have h2 := keys_loadProps_subset row ((req ++ opt) ++ auto) [] hx
      simp only [List.map_nil, List.nil_append] at h2
      rw [init_of_found hsel]
      show x ∈ (req ++ opt) ++ auto
      exact h2

/-- `_load` preserves the declared-keys invariant: it only adds declared or
auto-tracked columns to `_props`. -/
theorem goodKeys_load {r : KeyedSqliteThing} (h : GoodKeys r) (db : Table) :
    GoodKeys (r.load db) := by
  cases hid : r.id with
  | none =>
    have hstep : r.load db = r := by
      unfold load
      rw [hid]
    rw [hstep]
    exact h
  | some i =>
    have hstep : r.load db = (match selectById db i with
        | none => r
        | some row =>
          { r with props := loadProps row (r.db_props ++ r.db_auto_props) r.props,
                   in_db := true }) := by
      unfold load
      rw [hid]
    rw [hstep]
    cases hsel : selectById db i with
    | none => exact h
    | some row =>
      intro x hx
      show x ∈ r.db_props ++ r.db_auto_props
      have hx2 : x ∈ (loadProps row (r.db_props ++ r.db_auto_props) r.props).map
          Prod.fst := hx
      have h2 := keys_loadProps_subset row (r.db_props ++ r.db_auto_props) r.props hx2
      rcases List.mem_append.1 h2 with h3 | h3
      · exact h h3
      · exact h3

/-- C9: every operation preserves the declared-keys invariant on `_props`:
construction, `_load`, `__setattr__`, a successful `save`, a successful
`delete`, `mark_sent`, `retried`, and the `template_vars` setter (the last
needs the record's declarations to be `PendingSend`'s, since the setter
writes its key into `_props` directly). -/
theorem C9_props_keys_invariant :
    (∀ req opt auto id db, GoodKeys (init req opt auto id db)) ∧
    (∀ r : KeyedSqliteThing, ∀ db, GoodKeys r → GoodKeys (r.load db)) ∧
    (∀ r : KeyedSqliteThing, ∀ name v, GoodKeys r → GoodKeys (r.setattr name v)) ∧
    (∀ defaults r db r' db', GoodKeys r → save defaults r db = .ok (r', db') →
      GoodKeys r') ∧
    (∀ r : KeyedSqliteThing, ∀ db r' db', GoodKeys r → r.delete db = .ok (r', db') →
      GoodKeys r') ∧
    (∀ now r, GoodKeys r → GoodKeys (PendingSend.mark_sent now r)) ∧
    (∀ r r', GoodKeys r → PendingSend.retried r = some r' → GoodKeys r') ∧
    (∀ r v, PendingSend.IsPendingSend r → GoodKeys r →
      GoodKeys (PendingSend.template_vars_set r v)) := by
  refine ⟨goodKeys_init, fun r db h => goodKeys_load h db,
    fun r name v h => goodKeys_setattr h name v, ?_, ?_, ?_, ?_, ?_⟩
  · intro defaults r db r' db' h hsave
    rcases (save_ok_inv hsave).2 with
      ⟨i0, _, _, hr', _⟩ | ⟨_, _, hr', _⟩ |
      ⟨i0, _, _, _, _, _, hsc, _⟩ | ⟨_, _, _, _, hsc, _⟩
    · rw [hr']; exact h
    · rw [hr']; exact h
    · intro x hx
      rw [hsc.1] at hx
      have h2 := h hx
      unfold db_props at h2 ⊢
      rw [hsc.2.1, hsc.2.2.1, hsc.2.2.2]
      exact h2
    · intro x hx
      rw [hsc.1] at hx
      have h2 := h hx
      unfold db_props at h2 ⊢
      rw [hsc.2.1, hsc.2.2.1, hsc.2.2.2]
      exact h2
  · intro r db r' db' h hdel
    unfold delete at hdel
    by_cases hin : r.in_db
    · rw [if_pos hin] at hdel
      cases hid : r.id with
      | some i =>
        rw [hid] at hdel
        cases hdel
        exact h
      | none =>
        rw [hid] at hdel
        cases hdel
        exact h
    · rw [if_neg hin] at hdel
      cases hdel
  · intro now r h
    exact goodKeys_setattr h "sent_time" (some (Value.text now))
  · intro r r' h hret
    unfold PendingSend.retried at hret
    cases hc : PendingSend.retry_count r with
    | none => rw [hc] at hret; cases hret
    | some v =>
      cases v with
      | int n =>
        rw [hc] at hret
        cases hret
        exact goodKeys_setattr h "retry_count" (some (Value.int (n + 1)))
      | text s => rw [hc] at hret; cases hret
  · intro r v hpend h
    intro x hx
    rcases List.mem_cons.1
      (keys_setKey_subset r.props "template_vars_json"
        (some (Value.text (Json.dumps v))) hx) with h1 | h1
    · subst h1
      show "template_vars_json" ∈ r.db_props ++ r.db_auto_props
      refine List.mem_append.2 (Or.inl ?_)
      unfold db_props
      rw [hpend.1]
      simp [PendingSend.required_props]
    · exact h h1

/-- C9 witness: the `__setattr__` clause at a concrete fresh entry. -/
theorem C9_props_keys_invariant_witness :
    GoodKeys ((PendingSend.init none []).setattr "toaddr" (some (Value.text "x"))) :=
  C9_props_keys_invariant.2.2.1 (PendingSend.init none []) "toaddr"
    (some (Value.text "x"))
    (by
      intro x hx
      rw [show (PendingSend.init none []).props = [] from rfl] at hx
      simp at hx)

/-- C10: on a persisted record with every required property present, `save()`
issues only an `UPDATE` of the row matching the record's own identifier: the
record comes back unchanged (identifier and `_in_db` flag included), the table
keeps its length, and every row whose key differs from the record's identifier
is untouched. -/
theorem C10_update_frame (defaults : List (String × Value))
    (r : KeyedSqliteThing) (db : Table) (i : Nat)
    (hin : r.in_db = true) (hmiss : r.missing_props = []) (hid : r.id = some i) :
    save defaults r db = .ok (r, updateById db i r.props) ∧
    (updateById db i r.props).length = db.length ∧
    ∀ j (hj : j < db.length) (hj2 : j < (updateById db i r.props).length),
      (db.get ⟨j, hj⟩).rowId ≠ i →
        (updateById db i r.props).get ⟨j, hj2⟩ = db.get ⟨j, hj⟩ := by
  refine ⟨save_update hmiss hin hid, by simp [updateById], ?_⟩
  intro j hj hj2 hne
  have hne2 : ¬(db[j].rowId = i) := by
    simpa [List.get_eq_getElem] using hne
  simp [List.get_eq_getElem, updateById, List.getElem_map, hne2]

/-- C10 witness: re-saving the first enqueued demo entry against the demo
store updates only its own row. -/
theorem C10_update_frame_witness :
    save (PendingSend.outboxDefaults PendingSend.demoT2) PendingSend.demoE1
        PendingSend.demoDb1
      = .ok (PendingSend.demoE1,
          updateById PendingSend.demoDb1 1 PendingSend.demoE1.props) :=
  (C10_update_frame _ PendingSend.demoE1 PendingSend.demoDb1 1
    (by decide) (by decide) (by decide)).1

end KeyedSqliteThing

namespace PendingSend

/-- C1 counterexample: `retried()` does not persist.  On the persisted sample
entry it returns a record whose in-memory count is 1, yet it performs no store
access at all — `self.retry_count += 1` reads the property and assigns through
`__setattr__` into `_props`, issuing no statement — so a fresh instance
constructed from the unchanged store still reads count 0. -/
theorem C1_retried_not_persisted_counterexample :
    (∃ e1, retried (init (some 1) sampleDb) = some e1 ∧
      retry_count e1 = some (Value.int 1)) ∧
    retry_count (init (some 1) sampleDb) = some (Value.int 0) :=
  ⟨⟨_, rfl, rfl⟩, rfl⟩

/-- C1 (amended): `retried()` increments the in-memory `retry_count` by one
per call — `k` calls add exactly `k` to the count the record holds — but the
store is untouched; the new count reaches the row only through a later
`save()`. -/
theorem C1_retried_increments_in_memory
    (e : KeyedSqliteThing) (c : Int) (k : Nat)
    (hpend : IsPendingSend e) (hc : retry_count e = some (Value.int c)) :
    ∃ e', retriedK k e = some e' ∧
      retry_count e' = some (Value.int (c + (k : Int))) := by
  induction k generalizing e c hpend hc with
  | zero => exact ⟨e, rfl, by simpa using hc⟩
  | succ k ih =>
    have hret : retried e
        = some (e.setattr "retry_count" (some (Value.int (c + 1)))) := by
      unfold retried
      rw [hc]
    have hmem : "retry_count" ∈ e.db_props := by
      unfold KeyedSqliteThing.db_props
      rw [hpend.1, hpend.2.1]
      decide
    have hpend' : IsPendingSend
        (e.setattr "retry_count" (some (Value.int (c + 1)))) := by
      obtain ⟨h1, h2, h3⟩ := hpend
      have hf := KeyedSqliteThing.setattr_fields e "retry_count"
        (some (Value.int (c + 1)))
      exact ⟨hf.2.2.1.trans h1, hf.2.2.2.1.trans h2, hf.2.2.2.2.trans h3⟩
    have hc' : retry_count (e.setattr "retry_count" (some (Value.int (c + 1))))
        = some (Value.int (c + 1)) := by
      unfold retry_count KeyedSqliteThing.setattr
      rw [if_pos hmem]
      show (getKey (setKey e.props "retry_count" (some (Value.int (c + 1))))
        "retry_count").getD (some (Value.int 0)) = some (Value.int (c + 1))
      rw [getKey_setKey_self]
      rfl
    obtain ⟨e', h1, h2⟩ := ih _ (c + 1) hpend' hc'
    refine ⟨e', ?_, ?_⟩
    · show (retried e).bind (retriedK k) = some e'
      rw [hret]
      exact h1
    · rw [h2]
      have harith : c + 1 + (k : Int) = c + ((k + 1 : Nat) : Int) := by
        push_cast
        ring
      rw [harith]

/-- C1 witness: three `retried()` calls on the loaded sample entry take the
in-memory count from 0 to 3. -/
theorem C1_retried_increments_in_memory_witness :
    ∃ e', retriedK 3 (init (some 1) sampleDb) = some e' ∧
      retry_count e' = some (Value.int (0 + ((3 : Nat) : Int))) :=
  C1_retried_increments_in_memory (init (some 1) sampleDb) 0 3
    ⟨rfl, rfl, rfl⟩ rfl

/-- C2: soundness of the scan.  Over any store whose row keys are unique,
every entry `Unsent` yields has an integer `retry_count` below the bound and
reads as unsent, at most `max_results` entries come back, and their
`request_time` values are in non-decreasing store order. -/
theorem C2_unsent_scan_sound (db : Table) (m : Int) (n : Nat)
    (hids : (db.map Row.rowId).Nodup) :
    (∀ e ∈ Unsent db m n,
      (∃ c : Int, retry_count e = some (Value.int c) ∧ c < m) ∧
      is_sent e = false) ∧
    (Unsent db m n).length ≤ n ∧
    ((Unsent db m n).map
      (fun e => KeyedSqliteThing.prop e "request_time")).Pairwise
      (fun a b => valueLe a b = true) := by
  refine ⟨?_, ?_, ?_⟩
  · intro e he
    obtain ⟨row, hrow, hfilt, heq⟩ := mem_unsent he
    have hsel := selectById_mem_nodup hids hrow
    unfold unsentFilter at hfilt
    rw [Bool.and_eq_true] at hfilt
    obtain ⟨h1, h2⟩ := hfilt
    have hnone : row.get "sent_time" = none :=
      Option.isNone_iff_eq_none.1 h2
    constructor
    · cases hrc : row.get "retry_count" with
      | none =>
        rw [hrc] at h1
        cases h1
      | some v =>
        cases v with
        | text s =>
          rw [hrc] at h1
          cases h1
        | int c =>
          rw [hrc] at h1
          refine ⟨c, ?_, of_decide_eq_true h1⟩
          have hgk := KeyedSqliteThing.getKey_props_init_found hsel
            required_props optional_props ["request_time"] "retry_count"
            (by decide)
          rw [hrc] at hgk
          simp only [Option.isSome_some, if_pos] at hgk
          rw [heq]
          show (getKey (KeyedSqliteThing.init required_props optional_props
            ["request_time"] (some row.rowId) db).props "retry_count").getD
            (some (Value.int 0)) = some (Value.int c)
          rw [hgk]
          rfl
    · have hgs := KeyedSqliteThing.getKey_props_init_found hsel
        required_props optional_props ["request_time"] "sent_time" (by decide)
      rw [hnone] at hgs
      rw [heq]
      show (KeyedSqliteThing.get_time_property (KeyedSqliteThing.init
        required_props optional_props ["request_time"] (some row.rowId) db)
        "sent_time").isSome = false
      unfold KeyedSqliteThing.get_time_property
      rw [hgs]
      rfl
  · show ((((db.filter (unsentFilter m)).mergeSort rowLe).take n).map
      (fun row => init (some row.rowId) db)).length ≤ n
    rw [List.length_map]
    exact List.length_take_le n _
  · have hsorted : ((db.filter (unsentFilter m)).mergeSort rowLe).Pairwise
        (fun a b => rowLe a b = true) :=
      List.sorted_mergeSort rowLe_trans rowLe_total _
    have htake : (((db.filter (unsentFilter m)).mergeSort rowLe).take n).Pairwise
        (fun a b => rowLe a b = true) :=
      List.Pairwise.sublist (List.take_sublist n _) hsorted
    show ((((db.filter (unsentFilter m)).mergeSort rowLe).take n).map
      (fun row => init (some row.rowId) db)).map
        (fun e => KeyedSqliteThing.prop e "request_time") |>.Pairwise _
    rw [List.map_map, List.pairwise_map]
    refine List.Pairwise.imp_of_mem ?_ htake
    intro a b ha hb hab
    have hadb : a ∈ db :=
      List.mem_of_mem_filter (List.mem_mergeSort.1 (List.mem_of_mem_take ha))
    have hbdb : b ∈ db :=
      List.mem_of_mem_filter (List.mem_mergeSort.1 (List.mem_of_mem_take hb))
    show valueLe (KeyedSqliteThing.prop (init (some a.rowId) db) "request_time")
      (KeyedSqliteThing.prop (init (some b.rowId) db) "request_time") = true
    rw [prop_request_time hids hadb, prop_request_time hids hbdb]
    exact hab

/-- C2 witness: the scan of the sample store with bounds 5 and 50. -/
theorem C2_unsent_scan_sound_witness :
    (∀ e ∈ Unsent sampleDb 5 50,
      (∃ c : Int, retry_count e = some (Value.int c) ∧ c < 5) ∧
      is_sent e = false) ∧
    (Unsent sampleDb 5 50).length ≤ 50 ∧
    ((Unsent sampleDb 5 50).map
      (fun e => KeyedSqliteThing.prop e "request_time")).Pairwise
      (fun a b => valueLe a b = true) :=
  C2_unsent_scan_sound sampleDb 5 50 (by decide)

/-- C7 counterexample: `mark_sent()` alone does not keep the entry out of the
scan.  On the loaded sample entry it flips `is_sent` in memory, yet it touches
no store — so a subsequent `unsent(5, 50)` against the unchanged store still
yields the entry. -/
theorem C7_mark_sent_not_persisted_counterexample :
    is_sent (mark_sent "2020-01-02 00:00:00" (init (some 1) sampleDb)) = true ∧
    (Unsent sampleDb 5 50).map KeyedSqliteThing.id = [some 1] := by
  constructor
  · rfl
  · have hfilter : sampleDb.filter (unsentFilter 5) = sampleDb := rfl
    have hsort : sampleDb.mergeSort rowLe = sampleDb :=
      List.mergeSort_of_sorted (by simp [sampleDb])
    unfold Unsent
    rw [hfilter, hsort]
    rfl

/-- C7 (amended): `mark_sent()` sets the in-memory sent timestamp — `is_sent`
becomes true — but issues no statement; only once the marked record is
`save()`d (writing `sent_time` into its row) does a subsequent scan exclude
the entry's identifier. -/
theorem C7_mark_sent_then_save_excludes (defaults : List (String × Value))
    (db : Table) (i : Nat) (row : Row) (now : String) (m : Int) (n : Nat)
    (r' : KeyedSqliteThing) (db' : Table)
    (hsel : selectById db i = some row)
    (hsave : KeyedSqliteThing.save defaults
      (mark_sent now (init (some i) db)) db = .ok (r', db')) :
    is_sent (mark_sent now (init (some i) db)) = true ∧
    ∀ e ∈ Unsent db' m n, e.id ≠ some i := by
  have hme : mark_sent now (init (some i) db)
      = KeyedSqliteThing.setattr (init (some i) db) "sent_time"
        (some (Value.text now)) := rfl
  have hschema := KeyedSqliteThing.init_schema required_props optional_props
    ["request_time"] (some i) db
  have hmem : "sent_time" ∈ (init (some i) db).db_props := by
    unfold KeyedSqliteThing.db_props
    rw [show (init (some i) db).db_required_props = required_props from hschema.1,
        show (init (some i) db).db_optional_props = optional_props from hschema.2.1]
    decide
  have hprops : (KeyedSqliteThing.setattr (init (some i) db) "sent_time"
      (some (Value.text now))).props
      = setKey (init (some i) db).props "sent_time" (some (Value.text now)) := by
    unfold KeyedSqliteThing.setattr
    rw [if_pos hmem]
  have hgk : getKey (mark_sent now (init (some i) db)).props "sent_time"
      = some (some (Value.text now)) := by
    rw [hme, hprops, getKey_setKey_self]
  refine ⟨?_, ?_⟩
  · show (KeyedSqliteThing.get_time_property
      (mark_sent now (init (some i) db)) "sent_time").isSome = true
    unfold KeyedSqliteThing.get_time_property
    rw [hgk]
    rfl
  · intro e he hcon
    obtain ⟨row', hrow', hfilt, heq⟩ := mem_unsent he
    have heid : e.id = some row'.rowId := by
      rw [heq]
      exact KeyedSqliteThing.init_id required_props optional_props
        ["request_time"] (some row'.rowId) db'
    have hri : row'.rowId = i := by
      rw [heid] at hcon
      exact Option.some.inj hcon
    have hf := KeyedSqliteThing.setattr_fields (init (some i) db) "sent_time"
      (some (Value.text now))
    have hin : (mark_sent now (init (some i) db)).in_db = true := by
      rw [hme, hf.2.1]
      show (KeyedSqliteThing.init required_props optional_props
        ["request_time"] (some i) db).in_db = true
      rw [KeyedSqliteThing.init_of_found hsel]
    have hid0 : (mark_sent now (init (some i) db)).id = some i := by
      rw [hme, hf.1]
      exact KeyedSqliteThing.init_id required_props optional_props
        ["request_time"] (some i) db
    have hnd : ((mark_sent now (init (some i) db)).props.map Prod.fst).Nodup := by
      rw [hme, hprops]
      exact keys_setKey_nodup "sent_time" (some (Value.text now))
        (KeyedSqliteThing.keys_init_nodup required_props optional_props
          ["request_time"] (some i) db)
    rcases (KeyedSqliteThing.save_ok_inv hsave).2 with
      ⟨i0, _, hid1, _, hdb'⟩ | ⟨_, hid1, _, _⟩ |
      ⟨i0, hin1, _, _, _, _, _, _⟩ | ⟨hin1, _, _, _, _, _⟩
    · have hii : i0 = i := by
        rw [hid0] at hid1
        exact Option.some.inj hid1.symm
      subst hii
      subst hdb'
      rcases mem_updateById hrow' with ⟨_, hne⟩ | ⟨r0, _, _, hrow2⟩
      · exact hne hri
      · have hhk : hasKey (mark_sent now (init (some i0) db)).props "sent_time"
            = true := by
          unfold hasKey
          rw [hgk]
          rfl
        have hget : row'.get "sent_time" = some (Value.text now) := by
          rw [hrow2, get_applyAssignsRow r0 "sent_time" hnd,
            hhk, if_pos rfl, hgk]
          rfl
        unfold unsentFilter at hfilt
        rw [hget] at hfilt
        simp at hfilt
    · rw [hid0] at hid1
      cases hid1
    · rw [hin] at hin1
      cases hin1
    · rw [hin] at hin1
      cases hin1

/-- C3: the fixed dequeue scenario.  Three fresh, fully populated entries
enqueued into an empty store at strictly increasing instants `t1 < t2 < t3`
get identifiers 1, 2, 3, and `unsent(5, 2)` yields exactly the first two, in
enqueue order.  The `outbox` defaults that bind `retry_count` and
`request_time` at insert time are modelled from the spec's schema, which is
not part of the wrapper's sources. -/
theorem C3_unsent_fifo_scenario
    (t1 t2 t3 a1 a2 a3 n1 n2 n3 v1 v2 v3 : String)
    (e1 e2 e3 : KeyedSqliteThing) (db1 db2 db3 : Table)
    (h12 : t1 < t2) (h23 : t2 < t3)
    (hs1 : KeyedSqliteThing.save (outboxDefaults t1) (freshEntry a1 n1 v1) []
      = .ok (e1, db1))
    (hs2 : KeyedSqliteThing.save (outboxDefaults t2) (freshEntry a2 n2 v2) db1
      = .ok (e2, db2))
    (hs3 : KeyedSqliteThing.save (outboxDefaults t3) (freshEntry a3 n3 v3) db2
      = .ok (e3, db3)) :
    (Unsent db3 5 2).map (fun e => (e.id, KeyedSqliteThing.prop e "request_time"))
      = [(some 1, some (Value.text t1)), (some 2, some (Value.text t2))] ∧
    e1.id = some 1 ∧ e2.id = some 2 ∧ e3.id = some 3 := by
  have h1 : KeyedSqliteThing.save (outboxDefaults t1) (freshEntry a1 n1 v1) []
      = .ok ({ freshEntry a1 n1 v1 with id := some 1, in_db := true },
        [scenarioRow t1 a1 n1 v1 1]) :=
    KeyedSqliteThing.save_insert_none rfl rfl rfl
  rw [h1] at hs1
  injection hs1 with hp1
  injection hp1 with he1 hd1
  subst he1
  subst hd1
  have h2 : KeyedSqliteThing.save (outboxDefaults t2) (freshEntry a2 n2 v2)
      [scenarioRow t1 a1 n1 v1 1]
      = .ok ({ freshEntry a2 n2 v2 with id := some 2, in_db := true },
        [scenarioRow t1 a1 n1 v1 1, scenarioRow t2 a2 n2 v2 2]) :=
    KeyedSqliteThing.save_insert_none rfl rfl rfl
  rw [h2] at hs2
  injection hs2 with hp2
  injection hp2 with he2 hd2
  subst he2
  subst hd2
  have h3 : KeyedSqliteThing.save (outboxDefaults t3) (freshEntry a3 n3 v3)
      [scenarioRow t1 a1 n1 v1 1, scenarioRow t2 a2 n2 v2 2]
      = .ok ({ freshEntry a3 n3 v3 with id := some 3, in_db := true },
        [scenarioRow t1 a1 n1 v1 1, scenarioRow t2 a2 n2 v2 2,
         scenarioRow t3 a3 n3 v3 3]) :=
    KeyedSqliteThing.save_insert_none rfl rfl rfl
  rw [h3] at hs3
  injection hs3 with hp3
  injection hp3 with he3 hd3
  subst he3
  subst hd3
  refine ⟨?_, rfl, rfl, rfl⟩
  have hle12 : rowLe (scenarioRow t1 a1 n1 v1 1) (scenarioRow t2 a2 n2 v2 2)
      = true := by
    show decide (t1 ≤ t2) = true
    exact decide_eq_true (le_of_lt h12)
  have hle13 : rowLe (scenarioRow t1 a1 n1 v1 1) (scenarioRow t3 a3 n3 v3 3)
      = true := by
    show decide (t1 ≤ t3) = true
    exact decide_eq_true (le_of_lt (lt_trans h12 h23))
  have hle23 : rowLe (scenarioRow t2 a2 n2 v2 2) (scenarioRow t3 a3 n3 v3 3)
      = true := by
    show decide (t2 ≤ t3) = true
    exact decide_eq_true (le_of_lt h23)
  have hpair : List.Pairwise (fun a b => rowLe a b = true)
      [scenarioRow t1 a1 n1 v1 1, scenarioRow t2 a2 n2 v2 2,
       scenarioRow t3 a3 n3 v3 3] := by
    refine List.pairwise_cons.2 ⟨?_, List.pairwise_cons.2
      ⟨?_, List.pairwise_singleton _ _⟩⟩
    · intro b hb
      rcases List.mem_cons.1 hb with hb1 | hb1
      · rw [hb1]
        exact hle12
      · rw [List.mem_singleton.1 hb1]
        exact hle13
    · intro b hb
      rw [List.mem_singleton.1 hb]
      exact hle23
  have hfilter : List.filter (unsentFilter 5)
      [scenarioRow t1 a1 n1 v1 1, scenarioRow t2 a2 n2 v2 2,
       scenarioRow t3 a3 n3 v3 3]
      = [scenarioRow t1 a1 n1 v1 1, scenarioRow t2 a2 n2 v2 2,
         scenarioRow t3 a3 n3 v3 3] := rfl
  have hsort : List.mergeSort
      [scenarioRow t1 a1 n1 v1 1, scenarioRow t2 a2 n2 v2 2,
       scenarioRow t3 a3 n3 v3 3] rowLe
      = [scenarioRow t1 a1 n1 v1 1, scenarioRow t2 a2 n2 v2 2,
         scenarioRow t3 a3 n3 v3 3] :=
    List.mergeSort_of_sorted hpair
  unfold Unsent
  rw [hfilter, hsort]
  rfl

/-- C3 witness: the concrete demo enqueues at `demoT1 < demoT2 < demoT3`. -/
theorem C3_unsent_fifo_scenario_witness :
    (Unsent demoDb3 5 2).map
      (fun e => (e.id, KeyedSqliteThing.prop e "request_time"))
      = [(some 1, some (Value.text demoT1)), (some 2, some (Value.text demoT2))] ∧
    demoE1.id = some 1 ∧ demoE2.id = some 2 ∧ demoE3.id = some 3 :=
  C3_unsent_fifo_scenario demoT1 demoT2 demoT3 "a@example.com" "b@example.com"
    "c@example.com" "hello" "hello" "hello" "null" "null" "null"
    demoE1 demoE2 demoE3 demoDb1 demoDb2 demoDb3
    (by rw [String.lt_iff_toList_lt]; decide)
    (by rw [String.lt_iff_toList_lt]; decide)
    rfl rfl rfl

/-- C7 witness: the marked sample entry reports sent, and once saved the scan
of the updated store excludes its identifier. -/
theorem C7_mark_sent_then_save_excludes_witness :
    is_sent (mark_sent "2020-01-02 00:00:00" (init (some 1) sampleDb)) = true ∧
    ∀ e ∈ Unsent demoDb7 5 50, e.id ≠ some 1 :=
  C7_mark_sent_then_save_excludes (outboxDefaults "2020-01-02 00:00:00")
    sampleDb 1 sampleRow "2020-01-02 00:00:00" 5 50 demoE7 demoDb7 rfl rfl

/-- C8: the JSON payload round trip.  Setting `template_vars` stores
`json.dumps` of the value; reading it back — directly, or on a fresh instance
constructed from the identifier a successful `save` yields — decodes with
`json.loads` to a value structurally equal to the input. -/
theorem C8_template_vars_round_trip (v : Json) (r r' : KeyedSqliteThing)
    (defaults : List (String × Value)) (db db' : Table)
    (hkeys : (template_vars_set r v).props.map Prod.fst ⊆
      (template_vars_set r v).db_props ++ (template_vars_set r v).db_auto_props)
    (hnd : ((template_vars_set r v).props.map Prod.fst).Nodup)
    (hdb : (template_vars_set r v).in_db = true →
      ∃ j, (template_vars_set r v).id = some j ∧ (selectById db j).isSome)
    (hsave : KeyedSqliteThing.save defaults (template_vars_set r v) db
      = .ok (r', db')) :
    template_vars (template_vars_set r v) = some v ∧
    ∃ i, r'.id = some i ∧
      template_vars (KeyedSqliteThing.init
        (template_vars_set r v).db_required_props
        (template_vars_set r v).db_optional_props
        (template_vars_set r v).db_auto_props (some i) db') = some v := by
  have hg : getKey (template_vars_set r v).props "template_vars_json"
      = some (some (Value.text (Json.dumps v))) := by
    show getKey (setKey r.props "template_vars_json"
      (some (Value.text (Json.dumps v)))) "template_vars_json" = _
    exact getKey_setKey_self _ _ _
  have htv : ∀ s : KeyedSqliteThing,
      KeyedSqliteThing.prop s "template_vars_json"
        = some (Value.text (Json.dumps v)) →
      template_vars s = some v := by
    intro s hs
    unfold template_vars
    rw [show (getKey s.props "template_vars_json").getD none
        = KeyedSqliteThing.prop s "template_vars_json" from rfl, hs]
    exact Json.json_loads_dumps v
  have hpv : KeyedSqliteThing.prop (template_vars_set r v) "template_vars_json"
      = some (Value.text (Json.dumps v)) := by
    show (getKey (template_vars_set r v).props "template_vars_json").getD none
      = some (Value.text (Json.dumps v))
    rw [hg]
    rfl
  refine ⟨htv _ hpv, ?_⟩
  obtain ⟨i, hid⟩ : ∃ i, r'.id = some i := by
    rcases (KeyedSqliteThing.save_ok_inv hsave).2 with
      ⟨i0, hin, hid0, hr', _⟩ | ⟨hin, hid0, _, _⟩ |
      ⟨i0, _, _, _, hid', _, _, _⟩ | ⟨_, _, hid', _, _, _⟩
    · exact ⟨i0, by rw [hr', hid0]⟩
    · obtain ⟨j, hj, _⟩ := hdb hin
      rw [hid0] at hj
      cases hj
    · exact ⟨i0, hid'⟩
    · exact ⟨_, hid'⟩
  have hhk : hasKey (template_vars_set r v).props "template_vars_json" = true := by
    unfold hasKey
    rw [hg]
    rfl
  refine ⟨i, hid, htv _ ?_⟩
  rw [KeyedSqliteThing.prop_save_reload hkeys hnd hdb hsave hid
    "template_vars_json" hhk]
  exact hpv

/-- C8 witness: scenario E — the payload `\x7b"name": "Ann", "count": 3\x7d`
set on scenario D's record survives the direct read and the save-and-reload
read. -/
theorem C8_template_vars_round_trip_witness :
    template_vars (template_vars_set scenarioD demoJson) = some demoJson ∧
    ∃ i, demoE8.id = some i ∧
      template_vars (KeyedSqliteThing.init
        (template_vars_set scenarioD demoJson).db_required_props
        (template_vars_set scenarioD demoJson).db_optional_props
        (template_vars_set scenarioD demoJson).db_auto_props
        (some i) demoDb8) = some demoJson :=
  C8_template_vars_round_trip demoJson scenarioD demoE8
    (outboxDefaults demoT1) [] demoDb8
    (by decide) (by decide) (fun h => absurd h (by decide)) rfl

end PendingSend

end LibFritter
